import Mathlib

/-!
Verification of the TOON (Token-Oriented Object Notation) Python codec
(`toon_format` package): a shallow embedding of the encoder, decoder,
scanner, normalizer and primitive codec, together with theorems checking
the natural-language specification against the code.

Strings are modelled as `List Char`.  Python `dict`s are modelled as
insertion-ordered association lists.  Machine floats are outside the
model: the decoder's float branch keeps the numeric token symbolically
(`JsonValue.floatTok`); no theorem below depends on float arithmetic.
-/

namespace Toon

/-- Characters Python's `str.strip()` removes (ASCII whitespace). -/
def isPySpace (c : Char) : Bool :=
  c = ' ' || c = '\t' || c = '\n' || c = '\r' || c = '\x0b' || c = '\x0c'

/-- Python `s.strip()`: drop leading and trailing whitespace. -/
def pyStrip (s : List Char) : List Char :=
  ((s.dropWhile isPySpace).reverse.dropWhile isPySpace).reverse

/-- Python `s.split("\n")`. -/
def pySplitNl : List Char → List (List Char)
  | [] => [[]]
  | c :: rest =>
    match pySplitNl rest with
    | [] => [[]]
    | h :: t => if c = '\n' then [] :: h :: t else (c :: h) :: t

/-- Decimal digit character of `n < 10`. -/
def digitChar (n : Nat) : Char :=
  Char.ofNat (48 + n)

/-- Fuelled digit renderer behind `pyStrNat` (the fuel always suffices
for `fuel ≥ n`). -/
def pyStrNatAux : Nat → Nat → List Char
  | 0, n => [digitChar n]
  | fuel + 1, n =>
    if n < 10 then [digitChar n]
    else pyStrNatAux fuel (n / 10) ++ [digitChar (n % 10)]

/-- Python `str(n)` for a natural number. -/
def pyStrNat (n : Nat) : List Char :=
  pyStrNatAux n n

/-- Python `str(n)` for an integer. -/
def pyStrInt (n : Int) : List Char :=
  if n < 0 then '-' :: pyStrNat (-n).toNat else pyStrNat n.toNat

/-- Is this a decimal digit? -/
def isDig (c : Char) : Bool := '0' ≤ c && c ≤ '9'

/-- Python `int(token)` on a stripped token: optional sign then digits
(PEP-515 underscores are outside the model). -/
def pyParseIntDigits : List Char → Option Nat
  | [] => none
  | l =>
    if l.all isDig then
      some (l.foldl (fun a c => a * 10 + (c.toNat - 48)) 0)
    else none

/-- Python `int(token)` (returns `none` where Python raises `ValueError`;
`int` tolerates surrounding whitespace; PEP-515 underscores are outside
the model). -/
def pyParseInt (t0 : List Char) : Option Int :=
  match pyStrip t0 with
  | '-' :: r => (pyParseIntDigits r).map (fun n => -(n : Int))
  | '+' :: r => (pyParseIntDigits r).map (fun n => (n : Int))
  | t => (pyParseIntDigits t).map (fun n => (n : Int))

/-- The TOON value model (`JsonValue` in `types.py`), restricted to the
exactly-representable fragment: floats are kept as their source token. -/
inductive JsonValue where
  | null
  | bool (b : Bool)
  | int (n : Int)
  | floatTok (t : List Char)
  | str (s : List Char)
  | arr (items : List JsonValue)
  | obj (fields : List (List Char × JsonValue))
deriving Repr

/-! ### `_string_utils.py` -/

/-- Python `s.replace(target, repl)` for a single-character pattern. -/
def replChar (s : List Char) (target : Char) (repl : List Char) : List Char :=
  match s with
  | [] => []
  | c :: rest => (if c = target then repl else [c]) ++ replChar rest target repl

/-- The encoder-side `escape_string`: five chained single-character
replacements, in source order (backslash, quote, newline, CR, tab). -/
def escapeString (value : List Char) : List Char :=
  replChar
    (replChar
      (replChar
        (replChar
          (replChar value '\\' ['\\', '\\'])
          '"' ['\\', '"'])
        '\n' ['\\', 'n'])
      '\r' ['\\', 'r'])
    '\t' ['\\', 't']

/-- The decoder-side `unescape_string`: processes `\n`, `\t`, `\r`, `\\`,
`\"`; any other backslash pair, or a trailing backslash, is an error
(`ValueError` in the source, surfaced as a decode error). -/
def unescapeString : List Char → Except (List Char) (List Char)
  | [] => .ok []
  | '\\' :: rest =>
    match rest with
    | [] => .error ("Invalid escape sequence: backslash at end of string".data)
    | c :: r2 =>
      if c = 'n' then (unescapeString r2).map (fun t => '\n' :: t)
      else if c = 't' then (unescapeString r2).map (fun t => '\t' :: t)
      else if c = 'r' then (unescapeString r2).map (fun t => '\r' :: t)
      else if c = '\\' then (unescapeString r2).map (fun t => '\\' :: t)
      else if c = '"' then (unescapeString r2).map (fun t => '"' :: t)
      else .error ("Invalid escape sequence: \\".data ++ [c])
  | c :: rest => (unescapeString rest).map (fun t => c :: t)

/-! ### `_parsing_utils.py` -/

/-- The quote-state iterator `iter_unquoted`: yields `(index, char,
is_quoted)`; inside quotes a backslash and its next character are both
yielded as quoted. -/
def iterUnquoted : List Char → Nat → Bool → List (Nat × Char × Bool)
  | [], _, _ => []
  | [c], i, inQ => [(i, c, inQ)]
  | c :: d :: rest2, i, inQ =>
    if c = '"' then (i, c, inQ) :: iterUnquoted (d :: rest2) (i + 1) (!inQ)
    else if c = '\\' && inQ then
      (i, c, true) :: (i + 1, d, true) :: iterUnquoted rest2 (i + 2) inQ
    else (i, c, inQ) :: iterUnquoted (d :: rest2) (i + 1) inQ

/-- `find_unquoted_char` from `_parsing_utils.py` (`none` models Python's
`-1`). -/
def findUnquotedChar (line : List Char) (targetChar : Char) : Option Nat :=
  ((iterUnquoted line 0 false).find? (fun t => t.2.1 = targetChar && t.2.2 = false)).map
    (fun t => t.1)

/-- Inner accumulator loop of `parse_delimited_values`. -/
def pdvAux (delim : Char) :
    List (Nat × Char × Bool) → List Char → List (List Char) → List (List Char)
  | [], cur, toks => if cur ≠ [] || toks ≠ [] then toks ++ [cur] else toks
  | t :: rest, cur, toks =>
    if t.2.1 = delim && t.2.2 = false then pdvAux delim rest [] (toks ++ [cur])
    else pdvAux delim rest (cur ++ [t.2.1]) toks

/-- `parse_delimited_values`: split on the unquoted delimiter, keeping
quotes and escapes inside tokens. -/
def parseDelimitedValues (line : List Char) (delim : Char) : List (List Char) :=
  pdvAux delim (iterUnquoted line 0 false) [] []

/-- `find_first_unquoted`: first unquoted occurrence of any of `chars`,
as `(index, char)`; `none` models Python's `(-1, "")`. -/
def findFirstUnquoted (line : List Char) (chars : List Char) : Option (Nat × Char) :=
  ((iterUnquoted line 0 false).find? (fun t => chars.contains t.2.1 && t.2.2 = false)).map
    (fun t => (t.1, t.2.1))

/-! ### `_literal_utils.py` -/

/-- `is_boolean_or_null_literal`. -/
def isBooleanOrNullLiteral (token : List Char) : Bool :=
  token = "true".data || token = "false".data || token = "null".data

/-- Exponent tail accepted by Python `float()` after the mantissa:
empty, or `e`/`E`, optional sign, one or more digits. -/
def floatExpTail : List Char → Bool
  | [] => true
  | c :: r =>
    if c = 'e' || c = 'E' then
      let r2 := match r with
        | '+' :: x => x
        | '-' :: x => x
        | _ => r
      r2 ≠ [] && r2.all isDig
    else false

/-- Finite decimal literals accepted by Python `float()` (sign, digits,
optional fraction, optional exponent).  `inf`/`nan` spellings are folded
into the caller's finiteness rejection; PEP-515 underscores are outside
the model. -/
def pyFloatFinite (t : List Char) : Bool :=
  let t1 := match t with
    | '+' :: r => r
    | '-' :: r => r
    | _ => t
  let ip := t1.takeWhile isDig
  let r1 := t1.dropWhile isDig
  match r1 with
  | '.' :: r2 =>
    let fp := r2.takeWhile isDig
    let r3 := r2.dropWhile isDig
    (ip ≠ [] || fp ≠ []) && floatExpTail r3
  | _ => ip ≠ [] && floatExpTail r1

/-- `is_numeric_literal`: rejects a leading zero not followed by `.`
(after an optional minus sign), then requires a finite float parse. -/
def isNumericLiteral (token : List Char) : Bool :=
  if token = [] then false
  else
    let startIdx := if token.headD ' ' = '-' then 1 else 0
    if token.length ≤ startIdx then false
    else if token.length > startIdx + 1 && token.getD startIdx ' ' = '0' &&
        token.getD (startIdx + 1) ' ' ≠ '.' then false
    else pyFloatFinite token

/-! ### `_validation.py` -/

/-- ASCII letter? (`re.IGNORECASE` over `[A-Z]`). -/
def isAsciiAlpha (c : Char) : Bool :=
  ('A' ≤ c && c ≤ 'Z') || ('a' ≤ c && c ≤ 'z')

/-- `is_valid_unquoted_key`: matches `^[A-Z_][\w.]*$` case-insensitively
(ASCII reading of `\w`). -/
def isValidUnquotedKey (key : List Char) : Bool :=
  match key with
  | [] => false
  | c :: rest =>
    (isAsciiAlpha c || c = '_') &&
      rest.all (fun d => isAsciiAlpha d || isDig d || d = '_' || d = '.')

/-- `NUMERIC_REGEX = ^-?\d+(?:\.\d+)?(?:e[+-]?\d+)?$` (case-insensitive). -/
def matchesNumericRegex (t : List Char) : Bool :=
  let t1 := match t with
    | '-' :: r => r
    | _ => t
  let ip := t1.takeWhile isDig
  let r1 := t1.dropWhile isDig
  ip ≠ [] &&
    match r1 with
    | '.' :: r2 =>
      let fp := r2.takeWhile isDig
      let r3 := r2.dropWhile isDig
      fp ≠ [] && floatExpTail r3
    | _ => floatExpTail r1

/-- `OCTAL_REGEX = ^0\d+$`. -/
def matchesOctalRegex : List Char → Bool
  | '0' :: r => r ≠ [] && r.all isDig
  | _ => false

/-- `is_numeric_like`: the numeric pattern or the octal-like pattern. -/
def isNumericLike (value : List Char) : Bool :=
  matchesNumericRegex value || matchesOctalRegex value

/-- `is_safe_unquoted`: can this string be emitted without quotes? -/
def isSafeUnquoted (value : List Char) (delim : Char) : Bool :=
  if value = [] then false
  else if value ≠ pyStrip value then false
  else if isBooleanOrNullLiteral value || isNumericLike value then false
  else if value.contains ':' then false
  else if value.contains '"' || value.contains '\\' then false
  else if value.contains '[' || value.contains ']' ||
      value.contains '{' || value.contains '}' then false
  else if value.contains '\n' || value.contains '\r' || value.contains '\t' then false
  else if value.contains delim then false
  else if value.headD ' ' = '-' then false
  else true

/-! ### `_encode_primitives.py` -/

/-- `encode_string_literal`: bare when safe, else quoted with escapes. -/
def encodeStringLiteral (value : List Char) (delim : Char) : List Char :=
  if isSafeUnquoted value delim then value
  else '"' :: (escapeString value ++ ['"'])

/-- `encode_key`: bare when it matches the key pattern, else quoted. -/
def encodeKey (key : List Char) : List Char :=
  if isValidUnquotedKey key then key
  else '"' :: (escapeString key ++ ['"'])

/-- `encode_primitive` (only ever called on primitives; the array and
object cases are unreachable and return the empty string). -/
def encodePrimitive (v : JsonValue) (delim : Char) : List Char :=
  match v with
  | .null => "null".data
  | .bool b => if b then "true".data else "false".data
  | .int n => pyStrInt n
  | .floatTok t => t
  | .str s => encodeStringLiteral s delim
  | .arr _ => []
  | .obj _ => []

/-- `encode_and_join_primitives`. -/
def encodeAndJoinPrimitives (values : List JsonValue) (delim : Char) : List Char :=
  List.intercalate [delim] (values.map (fun v => encodePrimitive v delim))

/-- `str(length_marker) if length_marker else ""`, restricted to
string-or-`False` markers. -/
def strIfMarker : Option (List Char) → List Char
  | some m => if m ≠ [] then m else []
  | none => []

/-- The bracket segment `[marker?length delim?]` built by `format_header`:
the delimiter is included exactly when it is not the default comma. -/
def formatHeaderBracket (length : Nat) (delim : Char) (marker : Option (List Char)) :
    List Char :=
  if delim ≠ ',' then '[' :: (strIfMarker marker ++ pyStrNat length ++ [delim, ']'])
  else '[' :: (strIfMarker marker ++ pyStrNat length ++ [']'])

/-- `format_header` from `_encode_primitives.py`:
`key?[marker?length delim?]{fields}?:`. -/
def formatHeader (length : Nat) (key : Option (List Char))
    (fields : Option (List (List Char))) (delim : Char) (marker : Option (List Char)) :
    List Char :=
  let headerKey := match key with
    | some k => if k ≠ [] then encodeKey k else []
    | none => []
  let fieldsStr := match fields with
    | some fs =>
      if fs ≠ [] then '{' :: (List.intercalate [delim] (fs.map encodeKey) ++ ['}'])
      else []
    | none => []
  headerKey ++ formatHeaderBracket length delim marker ++ fieldsStr ++ [':']

/-- `encode_inline_array_line`: header, then a space and the joined
values (header only for an empty array). -/
def encodeInlineArrayLine (values : List JsonValue) (delim : Char)
    (pfx : Option (List Char)) (marker : Option (List Char)) : List Char :=
  let header := formatHeader values.length pfx none delim marker
  let joined := encodeAndJoinPrimitives values delim
  if values.length = 0 then header else header ++ (' ' :: joined)

/-! ### decode-side primitive codec (`decoder.py`) -/

/-- `parse_primitive`: quoted string, boolean/null literal, numeric
literal (int when no `.`/`e`, else float kept as its token), otherwise a
bare string. -/
def parsePrimitive (token0 : List Char) : Except (List Char) JsonValue :=
  let token := pyStrip token0
  if token.headD ' ' = '"' then
    if token.getLastD ' ' ≠ '"' || token.length < 2 then
      .error "Unterminated string: missing closing quote".data
    else (unescapeString (token.drop 1).dropLast).map .str
  else if isBooleanOrNullLiteral token then
    if token = "true".data then .ok (.bool true)
    else if token = "false".data then .ok (.bool false)
    else .ok .null
  else if token ≠ [] && isNumericLiteral token then
    if !token.contains '.' && !(token.map Char.toLower).contains 'e' then
      match pyParseInt token with
      | some n => .ok (.int n)
      | none => .ok (.str token)
    else .ok (.floatTok token)
  else .ok (.str token)

/-- `parse_key`: quoted (unescaped) or bare key. -/
def parseKey (keyStr0 : List Char) : Except (List Char) (List Char) :=
  let k := pyStrip keyStr0
  if k.headD ' ' = '"' then
    if k.getLastD ' ' ≠ '"' || k.length < 2 then .error "Unterminated quoted key".data
    else unescapeString (k.drop 1).dropLast
  else .ok k

/-- `split_key_value`: split at the first unquoted colon, stripping both
sides. -/
def splitKeyValue (line : List Char) : Except (List Char) (List Char × List Char) :=
  match findUnquotedChar line ':' with
  | none => .error "Missing colon after key".data
  | some i => .ok (pyStrip (line.take i), pyStrip (line.drop (i + 1)))

/-- `find_unquoted_char` with an explicit start index (quote state is
fresh from `start`, as in `iter_unquoted(line, start)`). -/
def findUnquotedCharFrom (line : List Char) (targetChar : Char) (start : Nat) : Option Nat :=
  ((iterUnquoted (line.drop start) start false).find?
      (fun t => t.2.1 = targetChar && t.2.2 = false)).map (fun t => t.1)

/-- Result of `parse_header`: `(key, length, delimiter, fields)`. -/
structure HeaderInfo where
  key : Option (List Char)
  length : Int
  delim : Char
  fields : Option (List (List Char))
deriving Repr

/-- `parse_header`: parse `key?[#?N delim?]{fields}?:`; `none` when the
line is not a header, an error for a malformed fields segment or key. -/
def parseHeader (line0 : List Char) : Except (List Char) (Option HeaderInfo) := do
  let line := pyStrip line0
  match findUnquotedChar line '[' with
  | none => return none
  | some bracketStart =>
    let key ← (do
      if bracketStart > 0 then
        let keyPart := pyStrip (line.take bracketStart)
        if keyPart ≠ [] then
          let k ← parseKey keyPart
          pure (some k)
        else pure none
      else pure (none : Option (List Char)))
    match findUnquotedCharFrom line ']' bracketStart with
    | none => return none
    | some bracketEnd =>
      let bracketContent0 := (line.take bracketEnd).drop (bracketStart + 1)
      let bracketContent :=
        if bracketContent0.headD ' ' = '#' then bracketContent0.drop 1 else bracketContent0
      let dl : Char × List Char :=
        if bracketContent.getLastD ' ' = '\t' then ('\t', bracketContent.dropLast)
        else if bracketContent.getLastD ' ' = '|' then ('|', bracketContent.dropLast)
        else if bracketContent.getLastD ' ' = ',' then (',', bracketContent.dropLast)
        else (',', bracketContent)
      match pyParseInt dl.2 with
      | none => return none
      | some length =>
        let afterBracket0 := pyStrip (line.drop (bracketEnd + 1))
        if afterBracket0.headD ' ' = '{' then
          match findUnquotedChar afterBracket0 '}' with
          | none => throw "Unterminated fields segment".data
          | some braceEnd =>
            let fieldsContent := (afterBracket0.take braceEnd).drop 1
            let fieldTokens := parseDelimitedValues fieldsContent dl.1
            let fields ← fieldTokens.mapM (fun f => parseKey (pyStrip f))
            let afterBracket := pyStrip (afterBracket0.drop (braceEnd + 1))
            if afterBracket.headD ' ' = ':' then
              return some ⟨key, length, dl.1, some fields⟩
            else return none
        else if afterBracket0.headD ' ' = ':' then
          return some ⟨key, length, dl.1, none⟩
        else return none

/-! ### `_scanner.py` -/

/-- A scanned line with depth metadata (`ParsedLine`). -/
structure ParsedLine where
  raw : List Char
  depth : Nat
  indent : Nat
  content : List Char
  lineNum : Nat
deriving Repr

/-- A line is blank when its content is whitespace-only. -/
def ParsedLine.blank (l : ParsedLine) : Bool := pyStrip l.content = []

/-- Position of a blank line (`BlankLineInfo`). -/
structure BlankLineInfo where
  lineNum : Nat
  indent : Nat
  depth : Nat
deriving Repr

/-- `_compute_depth_from_indent`: floored integer division (Python raises
`ZeroDivisionError` for width 0; theorems assume a positive width). -/
def computeDepthFromIndent (indentSpaces : Nat) (indentSize : Nat) : Nat :=
  indentSpaces / indentSize

/-- Body of the per-line loop of `to_parsed_lines`: indentation count,
depth tagging, and strict-mode validation (skipped for blank lines). -/
def scanLine (raw : List Char) (lineNum : Nat) (indentSize : Nat) (strict : Bool) :
    Except (List Char) (ParsedLine × Option BlankLineInfo) :=
  let indent := (raw.takeWhile (fun c => c = ' ')).length
  let content := raw.drop indent
  let depth := computeDepthFromIndent indent indentSize
  let isBlank := pyStrip content = []
  let blank : Option BlankLineInfo :=
    if isBlank then some ⟨lineNum, indent, depth⟩ else none
  if strict && !isBlank then
    let wsEnd := (raw.takeWhile (fun c => c = ' ' || c = '\t')).length
    if (raw.take wsEnd).contains '\t' then
      .error ("Line ".data ++ pyStrNat lineNum ++
        ": Tabs not allowed in indentation in strict mode".data)
    else if indent > 0 && indent % indentSize ≠ 0 then
      .error ("Line ".data ++ pyStrNat lineNum ++
        ": Indent must be exact multiple of ".data ++ pyStrNat indentSize ++
        ", but found ".data ++ pyStrNat indent ++ " spaces".data)
    else .ok (⟨raw, depth, indent, content, lineNum⟩, blank)
  else .ok (⟨raw, depth, indent, content, lineNum⟩, blank)

/-- The line loop of `to_parsed_lines` (1-based line numbers). -/
def toParsedLinesAux (indentSize : Nat) (strict : Bool) :
    List (List Char) → Nat → Except (List Char) (List ParsedLine × List BlankLineInfo)
  | [], _ => .ok ([], [])
  | raw :: rest, i => do
    let (pl, blank) ← scanLine raw (i + 1) indentSize strict
    let (ps, bs) ← toParsedLinesAux indentSize strict rest (i + 1)
    .ok (pl :: ps, match blank with | some b => b :: bs | none => bs)

/-- `to_parsed_lines`: empty/whitespace-only input yields no lines;
otherwise split on newlines and scan each line. -/
def toParsedLines (source : List Char) (indentSize : Nat) (strict : Bool) :
    Except (List Char) (List ParsedLine × List BlankLineInfo) :=
  if pyStrip source = [] then .ok ([], [])
  else toParsedLinesAux indentSize strict (pySplitNl source) 0

/-! ### structural decoder (`decoder.py`) -/

/-- Message used when the fuel of the embedded recursive decoder runs
out; the sources recurse without bound, and every theorem below either
fixes a concrete sufficient fuel or holds for all fuels. -/
def fuelMsg : List Char := "model: out of fuel".data

/-- Insertion-ordered `dict` assignment `d[k] = v`: overwrite in place
when the key exists, else append. -/
def dictInsert : List (List Char × JsonValue) → List Char → JsonValue →
    List (List Char × JsonValue)
  | [], k, v => [(k, v)]
  | (k0, v0) :: r, k, v =>
    if k0 = k then (k0, v) :: r else (k0, v0) :: dictInsert r k v

/-- The row-object comprehension of `decode_tabular_array`:
`{fields[j]: values[j] for j in range(min(len(fields), len(values)))}`. -/
def dictOfZip (fields : List (List Char)) (values : List JsonValue) :
    List (List Char × JsonValue) :=
  (List.zip fields values).foldl (fun d kv => dictInsert d kv.1 kv.2) []

/-- The comprehension `[parse_primitive(token) for token in tokens]`:
parse each token in order, propagating the first error. -/
def mapParsePrimitive : List (List Char) → Except (List Char) (List JsonValue)
  | [] => .ok []
  | t :: rest => do
    let v ← parsePrimitive t
    let vs ← mapParsePrimitive rest
    .ok (v :: vs)

/-- `decode_inline_array`: parse the delimiter-joined tokens; in strict
mode the count must match the declared length. -/
def decodeInlineArray (content : List Char) (delim : Char) (expectedLength : Int)
    (strict : Bool) : Except (List Char) (List JsonValue) :=
  if content = [] && expectedLength = 0 then .ok []
  else do
    let tokens := parseDelimitedValues content delim
    let values ← mapParsePrimitive tokens
    if strict && (values.length : Int) ≠ expectedLength then
      .error ("Expected ".data ++ pyStrInt expectedLength ++ " values, but got ".data ++
        pyStrNat values.length)
    else .ok values

/-- `is_row_line`: a data row has the delimiter (or nothing) as its first
unquoted special character; a key-value line has `:` first. -/
def isRowLine (line : List Char) (delim : Char) : Bool :=
  match findFirstUnquoted line [delim, ':'] with
  | none => true
  | some (_, c) => c = delim

/-- The row loop of `decode_tabular_array` (the fuel always suffices
when it exceeds the number of remaining lines). -/
def decodeTabularRows (fuel : Nat) (lines : List ParsedLine) (i : Nat) (rowDepth : Nat)
    (fields : List (List Char)) (delim : Char) (strict : Bool) :
    Except (List Char) (List JsonValue × Nat) :=
  match fuel with
  | 0 => .error fuelMsg
  | fuel + 1 =>
    if h : i < lines.length then
      let line := lines.get ⟨i, h⟩
      if line.blank then
        if strict then
          if line.depth ≥ rowDepth then .error "Blank lines not allowed inside arrays".data
          else .ok ([], i)
        else decodeTabularRows fuel lines (i + 1) rowDepth fields delim strict
      else if line.depth < rowDepth then .ok ([], i)
      else if line.depth > rowDepth then .ok ([], i)
      else if isRowLine line.content delim then do
        let tokens := parseDelimitedValues line.content delim
        let values ← mapParsePrimitive tokens
        if strict && values.length ≠ fields.length then
          .error ("Expected ".data ++ pyStrNat fields.length ++
            " values in row, but got ".data ++ pyStrNat values.length)
        else do
          let rest ← decodeTabularRows fuel lines (i + 1) rowDepth fields delim strict
          .ok (JsonValue.obj (dictOfZip fields values) :: rest.1, rest.2)
      else .ok ([], i)
    else .ok ([], i)

/-- `decode_tabular_array`: rows at header depth + 1, then the strict
row-count check against the declared length. -/
def decodeTabularArray (fuel : Nat) (lines : List ParsedLine) (startIdx : Nat)
    (headerDepth : Nat) (fields : List (List Char)) (delim : Char)
    (expectedLength : Int) (strict : Bool) :
    Except (List Char) (List JsonValue × Nat) := do
  let res ← decodeTabularRows fuel lines startIdx (headerDepth + 1) fields delim strict
  if strict && (res.1.length : Int) ≠ expectedLength then
    .error ("Expected ".data ++ pyStrInt expectedLength ++ " rows, but got ".data ++
      pyStrNat res.1.length)
  else .ok res

/-- The `while i < len(lines) and lines[i].depth > depth: i += 1` skip
used after decoding a nested block, as a closed form: advance past the
contiguous run of deeper lines. -/
def skipWhileDeeper (lines : List ParsedLine) (i : Nat) (depth : Nat) : Nat :=
  i + ((lines.drop i).takeWhile (fun l => l.depth > depth)).length

mutual

/-- `decode_object`: fields at a fixed expected depth, accumulated in
insertion order. -/
def decodeObjectFrom (fuel : Nat) (lines : List ParsedLine) (startIdx : Nat)
    (parentDepth : Nat) (strict : Bool) :
    Except (List Char) (List (List Char × JsonValue)) :=
  match fuel with
  | 0 => .error fuelMsg
  | fuel + 1 =>
    let expectedDepth := if startIdx = 0 then parentDepth else parentDepth + 1
    decodeObjectLoop fuel lines startIdx expectedDepth strict []
termination_by structural fuel

/-- The field loop of `decode_object`. -/
def decodeObjectLoop (fuel : Nat) (lines : List ParsedLine) (i : Nat)
    (expectedDepth : Nat) (strict : Bool) (acc : List (List Char × JsonValue)) :
    Except (List Char) (List (List Char × JsonValue)) :=
  match fuel with
  | 0 => .error fuelMsg
  | fuel + 1 =>
    if h : i < lines.length then
      let line := lines.get ⟨i, h⟩
      if line.blank then decodeObjectLoop fuel lines (i + 1) expectedDepth strict acc
      else if line.depth < expectedDepth then .ok acc
      else if line.depth > expectedDepth then
        decodeObjectLoop fuel lines (i + 1) expectedDepth strict acc
      else do
        let headerInfo ← parseHeader line.content
        match headerInfo with
        | some ⟨some k, len, d, fs⟩ => do
          let av ← decodeArrayFromHeader fuel lines i line.depth ⟨some k, len, d, fs⟩ strict
          decodeObjectLoop fuel lines av.2 expectedDepth strict
            (dictInsert acc k (.arr av.1))
        | _ =>
          match splitKeyValue line.content with
          | .error e =>
            if strict then .error e
            else decodeObjectLoop fuel lines (i + 1) expectedDepth strict acc
          | .ok (keyStr, valueStr) => do
            let key ← parseKey keyStr
            if valueStr = [] then do
              let nested ← decodeObjectFrom fuel lines (i + 1) line.depth strict
              decodeObjectLoop fuel lines (skipWhileDeeper lines (i + 1) line.depth)
                expectedDepth strict (dictInsert acc key (.obj nested))
            else do
              let v ← parsePrimitive valueStr
              decodeObjectLoop fuel lines (i + 1) expectedDepth strict
                (dictInsert acc key v)
    else .ok acc
termination_by structural fuel

/-- `decode_array_from_header`: inline content (or a declared-empty
non-tabular array) decodes inline; otherwise tabular when fields are
present, else list form. -/
def decodeArrayFromHeader (fuel : Nat) (lines : List ParsedLine) (headerIdx : Nat)
    (headerDepth : Nat) (hi : HeaderInfo) (strict : Bool) :
    Except (List Char) (List JsonValue × Nat) :=
  match fuel with
  | 0 => .error fuelMsg
  | fuel + 1 =>
    let headerLine := match lines.get? headerIdx with
      | some l => l.content
      | none => []
    let inlineContent := match splitKeyValue headerLine with
      | .ok kv => kv.2
      | .error _ => []
    if inlineContent ≠ [] || (hi.fields = none && hi.length = 0) then do
      let v ← decodeInlineArray inlineContent hi.delim hi.length strict
      .ok (v, headerIdx + 1)
    else
      match hi.fields with
      | some fields =>
        decodeTabularArray fuel lines (headerIdx + 1) headerDepth fields hi.delim
          hi.length strict
      | none =>
        decodeListArray fuel lines (headerIdx + 1) headerDepth hi.delim hi.length strict
termination_by structural fuel

/-- `decode_list_array`: the item loop, then the strict item-count check
against the declared length. -/
def decodeListArray (fuel : Nat) (lines : List ParsedLine) (startIdx : Nat)
    (headerDepth : Nat) (delim : Char) (expectedLength : Int) (strict : Bool) :
    Except (List Char) (List JsonValue × Nat) :=
  match fuel with
  | 0 => .error fuelMsg
  | fuel + 1 => do
    let res ← decodeListLoop fuel lines startIdx (headerDepth + 1) delim strict
    if strict && (res.1.length : Int) ≠ expectedLength then
      .error ("Expected ".data ++ pyStrInt expectedLength ++ " items, but got ".data ++
        pyStrNat res.1.length)
    else .ok res
termination_by structural fuel

/-- The item loop of `decode_list_array`.  A caught `ToonDecodeError`
deep inside an item's field loop resumes, in the source, from the index
the mutable cursor had reached; that index is approximated here by the
item line's successor (no theorem depends on such inputs). -/
def decodeListLoop (fuel : Nat) (lines : List ParsedLine) (i : Nat) (itemDepth : Nat)
    (delim : Char) (strict : Bool) : Except (List Char) (List JsonValue × Nat) :=
  match fuel with
  | 0 => .error fuelMsg
  | fuel + 1 =>
    if h : i < lines.length then
      let line := lines.get ⟨i, h⟩
      if line.blank then
        if strict then
          if line.depth ≥ itemDepth then .error "Blank lines not allowed inside arrays".data
          else .ok ([], i)
        else decodeListLoop fuel lines (i + 1) itemDepth delim strict
      else if line.depth < itemDepth then .ok ([], i)
      else if line.content.headD ' ' ≠ '-' then .ok ([], i)
      else
        let itemContent := pyStrip (line.content.drop 1)
        do
        let itemHeader ← parseHeader itemContent
        match itemHeader with
        | some ⟨none, len, itemDelim, fs⟩ =>
          match itemContent.findIdx? (fun c => c = ':') with
          | some colonIdx =>
            let inlinePart := pyStrip (itemContent.drop (colonIdx + 1))
            if inlinePart ≠ [] || len = 0 then do
              let itemVal ← decodeInlineArray inlinePart itemDelim len strict
              let rest ← decodeListLoop fuel lines (i + 1) itemDepth delim strict
              .ok (JsonValue.arr itemVal :: rest.1, rest.2)
            else
              decodeListItemObjOrPrim fuel lines i line.depth itemContent
                ⟨none, len, itemDelim, fs⟩ itemDepth delim strict
          | none =>
            decodeListItemObjOrPrim fuel lines i line.depth itemContent
              ⟨none, len, itemDelim, fs⟩ itemDepth delim strict
        | some ⟨some k, len, itemDelim, fs⟩ => do
          let av ← decodeArrayFromHeader fuel lines i line.depth
            ⟨some k, len, itemDelim, fs⟩ strict
          let fieldsRes ← decodeItemFields fuel lines av.2 line.depth strict [(k, .arr av.1)]
          let rest ← decodeListLoop fuel lines fieldsRes.2 itemDepth delim strict
          .ok (JsonValue.obj fieldsRes.1 :: rest.1, rest.2)
        | none =>
          decodeListItemObjOrPrim fuel lines i line.depth itemContent
            ⟨none, 0, ',', none⟩ itemDepth delim strict
    else .ok ([], i)
termination_by structural fuel

/-- The object-or-primitive tail of a list item (the part of
`decode_list_array` from "check if it is an object"), reached either
when the item is not an array header or through the source's
fall-through for a keyless header without usable inline content. -/
def decodeListItemObjOrPrim (fuel : Nat) (lines : List ParsedLine) (i : Nat)
    (lineDepth : Nat) (itemContent : List Char) (_hi : HeaderInfo) (itemDepth : Nat)
    (delim : Char) (strict : Bool) : Except (List Char) (List JsonValue × Nat) :=
  match fuel with
  | 0 => .error fuelMsg
  | fuel + 1 =>
    match (do
      let kv ← splitKeyValue itemContent
      let key ← parseKey kv.1
      if kv.2 = [] then do
        let nested ← decodeObjectFrom fuel lines (i + 1) (lineDepth + 1) strict
        pure (key, JsonValue.obj nested, skipWhileDeeper lines (i + 1) (lineDepth + 1))
      else do
        let v ← parsePrimitive kv.2
        pure (key, v, i + 1) : Except (List Char) (List Char × JsonValue × Nat)) with
    | .ok (key, v, afterFirst) => do
      let fieldsRes ← decodeItemFields fuel lines afterFirst lineDepth strict [(key, v)]
      let rest ← decodeListLoop fuel lines fieldsRes.2 itemDepth delim strict
      .ok (JsonValue.obj fieldsRes.1 :: rest.1, rest.2)
    | .error _ => do
      let item : JsonValue ←
        if itemContent = [] then pure (JsonValue.obj [])
        else parsePrimitive itemContent
      let rest ← decodeListLoop fuel lines (i + 1) itemDepth delim strict
      .ok (item :: rest.1, rest.2)
termination_by structural fuel

/-- The remaining-fields loop shared by the object-item branches of
`decode_list_array`: reads `key: value` fields at the item depth + 1,
stopping (without error) at the first field that fails to parse as a
key-value line. -/
def decodeItemFields (fuel : Nat) (lines : List ParsedLine) (i : Nat)
    (itemLineDepth : Nat) (strict : Bool) (acc : List (List Char × JsonValue)) :
    Except (List Char) (List (List Char × JsonValue) × Nat) :=
  match fuel with
  | 0 => .error fuelMsg
  | fuel + 1 =>
    if h : i < lines.length then
      let fieldLine := lines.get ⟨i, h⟩
      if fieldLine.depth ≠ itemLineDepth + 1 then .ok (acc, i)
      else if fieldLine.blank then
        decodeItemFields fuel lines (i + 1) itemLineDepth strict acc
      else do
        let fieldHeader ← parseHeader fieldLine.content
        match fieldHeader with
        | some ⟨some fk, len, d, fs⟩ => do
          let av ← decodeArrayFromHeader fuel lines i fieldLine.depth
            ⟨some fk, len, d, fs⟩ strict
          decodeItemFields fuel lines av.2 itemLineDepth strict
            (dictInsert acc fk (.arr av.1))
        | _ =>
          match (do
            let kv ← splitKeyValue fieldLine.content
            let fk ← parseKey kv.1
            if kv.2 = [] then do
              let nested ← decodeObjectFrom fuel lines (i + 1) fieldLine.depth strict
              pure (fk, JsonValue.obj nested,
                skipWhileDeeper lines (i + 1) fieldLine.depth)
            else do
              let v ← parsePrimitive kv.2
              pure (fk, v, i + 1) :
            Except (List Char) (List Char × JsonValue × Nat)) with
          | .ok (fk, v, nextI) =>
            decodeItemFields fuel lines nextI itemLineDepth strict (dictInsert acc fk v)
          | .error _ => .ok (acc, i)
    else .ok (acc, i)
termination_by structural fuel

end

/-- `decode`: scan, strip line contents, dispatch the root form (array
header without key, single primitive line, or object). -/
def decodeToon (fuel : Nat) (inputStr : List Char) (indentSize : Nat) (strict : Bool) :
    Except (List Char) JsonValue :=
  match fuel with
  | 0 => .error fuelMsg
  | fuel + 1 => do
    let scanned ← toParsedLines inputStr indentSize strict
    let lines := scanned.1.map (fun l =>
      { l with content := pyStrip l.content : ParsedLine })
    match lines.filter (fun l => !l.blank) with
    | [] => .ok (.obj [])
    | firstLine :: restNonBlank => do
      let headerInfo ← parseHeader firstLine.content
      match headerInfo with
      | some ⟨none, len, d, fs⟩ => do
        let av ← decodeArrayFromHeader fuel lines 0 0 ⟨none, len, d, fs⟩ strict
        .ok (.arr av.1)
      | _ =>
        if restNonBlank.isEmpty then
          match splitKeyValue firstLine.content with
          | .ok _ => JsonValue.obj <$> decodeObjectFrom fuel lines 0 0 strict
          | .error _ =>
            match headerInfo with
            | none => parsePrimitive firstLine.content
            | some _ => JsonValue.obj <$> decodeObjectFrom fuel lines 0 0 strict
        else JsonValue.obj <$> decodeObjectFrom fuel lines 0 0 strict

/-- Fuel that dominates the recursion depth of the source decoder on a
given input (every recursive call advances the cursor or descends). -/
def decodeDefaultFuel (s : List Char) : Nat :=
  (s.length + 2) * (s.length + 2) + 64

/-- The public `decode` entry point over options `(indent, strict)`. -/
def decode (s : List Char) (indentSize : Nat) (strict : Bool) :
    Except (List Char) JsonValue :=
  decodeToon (decodeDefaultFuel s) s indentSize strict

/-! ### `_normalize.py` (the normalizer imported by `encoder.py`) -/

mutual

/-- `normalize_value` from `_normalize.py`, restricted to inputs already
in the JSON value model (on which the Python branches for `None`, `str`,
`bool`, `int`, `list` and `dict` apply; floats stay symbolic). -/
def normalizeValue : JsonValue → JsonValue
  | .null => .null
  | .str s => .str s
  | .bool b => .bool b
  | .int n => .int n
  | .floatTok t => .floatTok t
  | .arr l => .arr (normalizeList l)
  | .obj f => .obj (normalizeFields f)

/-- List comprehension `[normalize_value(item) for item in value]`. -/
def normalizeList : List JsonValue → List JsonValue
  | [] => []
  | v :: r => normalizeValue v :: normalizeList r

/-- Dict comprehension `{str(key): normalize_value(val) ...}` on
string-keyed objects. -/
def normalizeFields : List (List Char × JsonValue) → List (List Char × JsonValue)
  | [] => []
  | (k, v) :: r => (k, normalizeValue v) :: normalizeFields r

end

/-- The set branch of `_normalize.normalize_value` (lines 61-62):
`[normalize_value(item) for item in value]` over the set's iteration
order, with no sorting. -/
def normalizeSetU (iterOrder : List JsonValue) : List JsonValue :=
  normalizeList iterOrder

/-- Python `<` on strings: lexicographic comparison by code point. -/
def lexLt : List Char → List Char → Bool
  | [], [] => false
  | [], _ :: _ => true
  | _ :: _, [] => false
  | a :: as, b :: bs =>
    if a.toNat < b.toNat then true
    else if b.toNat < a.toNat then false
    else lexLt as bs

/-- Stable insertion into a sorted list (the order `sorted` produces). -/
def lexInsert (x : List Char) : List (List Char) → List (List Char)
  | [] => [x]
  | y :: r => if lexLt x y then x :: y :: r else y :: lexInsert x r

/-- Python `sorted` on a list of strings. -/
def pySortedStrs : List (List Char) → List (List Char)
  | [] => []
  | x :: r => lexInsert x (pySortedStrs r)

/-- The set branch of `normalize.normalize_value` (lines 141-150),
restricted to homogeneous sets of strings (where `sorted(value)`
succeeds): sort first, then normalize each element. -/
def normalizeSetSortedStrs (iterOrder : List (List Char)) : List JsonValue :=
  (pySortedStrs iterOrder).map (fun s => normalizeValue (.str s))

/-! ### structural encoder (`_encoders.py`, `_writer.py`) -/

/-- Resolved encode options (`ResolvedEncodeOptions`). -/
structure EncOpts where
  indent : Nat
  delim : Char
  marker : Option (List Char)
deriving Repr

/-- Default encode options: indent 2, comma, no length marker. -/
def defaultEncOpts : EncOpts := ⟨2, ',', none⟩

/-- `LineWriter.push`: one output line, indented by
`indent_size * depth` spaces. -/
def pushLine (indentSize : Nat) (depth : Nat) (content : List Char) : List Char :=
  List.replicate (indentSize * depth) ' ' ++ content

/-- `LineWriter.push_list_item`: a pushed line prefixed by `- `. -/
def pushListItem (indentSize : Nat) (depth : Nat) (content : List Char) : List Char :=
  pushLine indentSize depth ('-' :: ' ' :: content)

/-- `is_json_primitive` on model values. -/
def isJsonPrimitiveV : JsonValue → Bool
  | .null | .bool _ | .int _ | .floatTok _ | .str _ => true
  | .arr _ | .obj _ => false

/-- `is_json_array` on model values. -/
def isJsonArrayV : JsonValue → Bool
  | .arr _ => true
  | _ => false

/-- `is_json_object` on model values. -/
def isJsonObjectV : JsonValue → Bool
  | .obj _ => true
  | _ => false

/-- Field list of an object value (callers guard with
`is_json_object`). -/
def objFields : JsonValue → List (List Char × JsonValue)
  | .obj f => f
  | _ => []

/-- Item list of an array value (callers guard with `is_json_array`). -/
def arrItems : JsonValue → List JsonValue
  | .arr l => l
  | _ => []

/-- `is_array_of_primitives`. -/
def isArrayOfPrimitives (l : List JsonValue) : Bool :=
  l.all isJsonPrimitiveV

/-- `is_array_of_arrays`. -/
def isArrayOfArrays (l : List JsonValue) : Bool :=
  l.all isJsonArrayV

/-- `is_array_of_objects`. -/
def isArrayOfObjects (l : List JsonValue) : Bool :=
  l.all isJsonObjectV

/-- `list(row.keys())`. -/
def dictKeys (f : List (List Char × JsonValue)) : List (List Char) :=
  f.map Prod.fst

/-- `row[key]` (first binding; keys are unique in source dicts). -/
def dictGet? (f : List (List Char × JsonValue)) (k : List Char) : Option JsonValue :=
  (f.find? (fun kv => kv.1 = k)).map Prod.snd

/-- `is_tabular_array`: every row has exactly the header's keys (order
may differ) with primitive values. -/
def isTabularArray (rows : List JsonValue) (header : List (List Char)) : Bool :=
  rows.all (fun row =>
    (dictKeys (objFields row)).length = header.length &&
      header.all (fun k =>
        match dictGet? (objFields row) k with
        | some v => isJsonPrimitiveV v
        | none => false))

/-- `extract_tabular_header`: the first row's key order, when the rows
form a tabular array. -/
def extractTabularHeader (rows : List JsonValue) : Option (List (List Char)) :=
  match rows with
  | [] => none
  | first :: _ =>
    let firstKeys := dictKeys (objFields first)
    if firstKeys = [] then none
    else if isTabularArray rows firstKeys then some firstKeys else none

/-- `write_tabular_rows`: one delimiter-joined line per row, values in
header order. -/
def writeTabularRows (rows : List JsonValue) (header : List (List Char))
    (indentSize : Nat) (depth : Nat) (delim : Char) : List (List Char) :=
  rows.map (fun row =>
    let values := header.filterMap (fun k => dictGet? (objFields row) k)
    let primitives := values.filter isJsonPrimitiveV
    pushLine indentSize depth (encodeAndJoinPrimitives primitives delim))

/-- `encode_array_of_objects_as_tabular`: tabular header line plus the
rows at depth + 1. -/
def encodeArrayOfObjectsAsTabular (pfx : Option (List Char)) (rows : List JsonValue)
    (header : List (List Char)) (depth : Nat) (opts : EncOpts) : List (List Char) :=
  pushLine opts.indent depth
      (formatHeader rows.length pfx (some header) opts.delim opts.marker) ::
    writeTabularRows rows header opts.indent (depth + 1) opts.delim

/-- `encode_array_of_arrays_as_list_items`: plain header line plus one
inline-array list item per (all-primitive) inner array. -/
def encodeArrayOfArraysAsListItems (pfx : Option (List Char)) (values : List JsonValue)
    (depth : Nat) (opts : EncOpts) : List (List Char) :=
  pushLine opts.indent depth
      (formatHeader values.length pfx none opts.delim opts.marker) ::
    values.foldr (fun a acc =>
      if isArrayOfPrimitives (arrItems a) then
        pushListItem opts.indent (depth + 1)
            (encodeInlineArrayLine (arrItems a) opts.delim none opts.marker) :: acc
      else acc) []

mutual

/-- `encode_array`: the four-way strategy dispatch (empty, inline
all-primitive, tabular array of uniform objects, expanded list). -/
def encodeArray (fuel : Nat) (key : Option (List Char)) (value : List JsonValue)
    (depth : Nat) (opts : EncOpts) : List (List Char) :=
  match fuel with
  | 0 => []
  | fuel + 1 =>
    if value.length = 0 then
      [pushLine opts.indent depth (formatHeader 0 key none opts.delim opts.marker)]
    else if isArrayOfPrimitives value then
      [pushLine opts.indent depth (encodeInlineArrayLine value opts.delim key opts.marker)]
    else if isArrayOfArrays value &&
        value.all (fun a => isArrayOfPrimitives (arrItems a)) then
      encodeArrayOfArraysAsListItems key value depth opts
    else if isArrayOfObjects value then
      match extractTabularHeader value with
      | some headerFields => encodeArrayOfObjectsAsTabular key value headerFields depth opts
      | none => encodeMixedArrayAsListItems fuel key value depth opts
    else encodeMixedArrayAsListItems fuel key value depth opts
termination_by structural fuel

/-- `encode_object`: one key-value pair after another, in insertion
order. -/
def encodeObject (fuel : Nat) (fields : List (List Char × JsonValue)) (depth : Nat)
    (opts : EncOpts) : List (List Char) :=
  match fuel with
  | 0 => []
  | fuel + 1 =>
    match fields with
    | [] => []
    | (k, v) :: rest =>
      encodeKeyValuePair fuel k v depth opts ++ encodeObject fuel rest depth opts
termination_by structural fuel

/-- `encode_key_value_pair`. -/
def encodeKeyValuePair (fuel : Nat) (key : List Char) (value : JsonValue) (depth : Nat)
    (opts : EncOpts) : List (List Char) :=
  match fuel with
  | 0 => []
  | fuel + 1 =>
    if isJsonPrimitiveV value then
      [pushLine opts.indent depth
        (encodeKey key ++ ':' :: ' ' :: encodePrimitive value opts.delim)]
    else if isJsonArrayV value then
      encodeArray fuel (some key) (arrItems value) depth opts
    else
      match objFields value with
      | [] => [pushLine opts.indent depth (encodeKey key ++ [':'])]
      | nested =>
        pushLine opts.indent depth (encodeKey key ++ [':']) ::
          encodeObject fuel nested (depth + 1) opts
termination_by structural fuel

/-- `encode_mixed_array_as_list_items`: plain header line plus one list
item per element. -/
def encodeMixedArrayAsListItems (fuel : Nat) (pfx : Option (List Char))
    (items : List JsonValue) (depth : Nat) (opts : EncOpts) : List (List Char) :=
  match fuel with
  | 0 => []
  | fuel + 1 =>
    pushLine opts.indent depth
        (formatHeader items.length pfx none opts.delim opts.marker) ::
      encodeListItems fuel items (depth + 1) opts
termination_by structural fuel

/-- The per-item loop of `encode_mixed_array_as_list_items`. -/
def encodeListItems (fuel : Nat) (items : List JsonValue) (depth : Nat) (opts : EncOpts) :
    List (List Char) :=
  match fuel with
  | 0 => []
  | fuel + 1 =>
    match items with
    | [] => []
    | item :: rest =>
      encodeListItemValue fuel item depth opts ++ encodeListItems fuel rest depth opts
termination_by structural fuel

/-- `encode_list_item_value`: a primitive, inline array, nested complex
array, or object as a `- `-prefixed block. -/
def encodeListItemValue (fuel : Nat) (value : JsonValue) (depth : Nat) (opts : EncOpts) :
    List (List Char) :=
  match fuel with
  | 0 => []
  | fuel + 1 =>
    if isJsonPrimitiveV value then
      [pushListItem opts.indent depth (encodePrimitive value opts.delim)]
    else if isJsonArrayV value then
      let av := arrItems value
      if isArrayOfPrimitives av then
        [pushListItem opts.indent depth
          (encodeInlineArrayLine av opts.delim none opts.marker)]
      else
        pushListItem opts.indent depth
            (formatHeader av.length none none opts.delim opts.marker) ::
          encodeListItems fuel av (depth + 1) opts
    else encodeObjectAsListItem fuel (objFields value) depth opts
termination_by structural fuel

/-- `encode_object_as_list_item`: first field on the `- ` line, the
remaining fields one level deeper. -/
def encodeObjectAsListItem (fuel : Nat) (fields : List (List Char × JsonValue))
    (depth : Nat) (opts : EncOpts) : List (List Char) :=
  match fuel with
  | 0 => []
  | fuel + 1 =>
    match fields with
    | [] => [pushLine opts.indent depth ['-']]
    | (firstKey, firstValue) :: rest =>
      let firstLines :=
        if isJsonPrimitiveV firstValue then
          [pushListItem opts.indent depth
            (encodeKey firstKey ++ ':' :: ' ' :: encodePrimitive firstValue opts.delim)]
        else if isJsonArrayV firstValue then
          let av := arrItems firstValue
          if isArrayOfPrimitives av then
            [pushListItem opts.indent depth
              (encodeInlineArrayLine av opts.delim (some firstKey) opts.marker)]
          else if isArrayOfObjects av then
            match extractTabularHeader av with
            | some hdr =>
              pushListItem opts.indent depth
                  (formatHeader av.length (some firstKey) (some hdr) opts.delim
                    opts.marker) ::
                writeTabularRows av hdr opts.indent (depth + 1) opts.delim
            | none =>
              pushListItem opts.indent depth
                  (encodeKey firstKey ++ '[' :: pyStrNat av.length ++ [']', ':']) ::
                encodeObjectsAsListItems fuel av (depth + 1) opts
          else
            pushListItem opts.indent depth
                (encodeKey firstKey ++ '[' :: pyStrNat av.length ++ [']', ':']) ::
              encodeListItems fuel av (depth + 1) opts
        else
          match objFields firstValue with
          | [] => [pushListItem opts.indent depth (encodeKey firstKey ++ [':'])]
          | nested =>
            pushListItem opts.indent depth (encodeKey firstKey ++ [':']) ::
              encodeObject fuel nested (depth + 2) opts
      firstLines ++ encodeRemainingFields fuel rest depth opts
termination_by structural fuel

/-- The remaining-keys loop of `encode_object_as_list_item`. -/
def encodeRemainingFields (fuel : Nat) (fields : List (List Char × JsonValue))
    (depth : Nat) (opts : EncOpts) : List (List Char) :=
  match fuel with
  | 0 => []
  | fuel + 1 =>
    match fields with
    | [] => []
    | (k, v) :: rest =>
      encodeKeyValuePair fuel k v (depth + 1) opts ++
        encodeRemainingFields fuel rest depth opts
termination_by structural fuel

/-- The object-item loop of the non-uniform array-of-objects branch of
`encode_object_as_list_item`. -/
def encodeObjectsAsListItems (fuel : Nat) (objs : List JsonValue) (depth : Nat)
    (opts : EncOpts) : List (List Char) :=
  match fuel with
  | 0 => []
  | fuel + 1 =>
    match objs with
    | [] => []
    | o :: rest =>
      encodeObjectAsListItem fuel (objFields o) depth opts ++
        encodeObjectsAsListItems fuel rest depth opts
termination_by structural fuel

end

/-- `str(writer)`: join the accumulated lines with newlines. -/
def joinLines : List (List Char) → List Char
  | [] => []
  | [l] => l
  | l :: rest => l ++ '\n' :: joinLines rest

/-- `encode_value` from `_encoders.py`: a primitive is rendered
directly; otherwise the lines of the array or object encoder are
joined. -/
def encodeValue (fuel : Nat) (value : JsonValue) (opts : EncOpts) : List Char :=
  if isJsonPrimitiveV value then encodePrimitive value opts.delim
  else
    match value with
    | .arr a => joinLines (encodeArray fuel none a 0 opts)
    | .obj o => joinLines (encodeObject fuel o 0 opts)
    | _ => []

mutual

/-- Fuel dominating the encoder's recursion depth on a given value. -/
def sizeOfValue : JsonValue → Nat
  | .null | .bool _ | .int _ | .floatTok _ | .str _ => 1
  | .arr l => 1 + sizeOfList l
  | .obj f => 1 + sizeOfFields f

/-- Total size of the values in a list. -/
def sizeOfList : List JsonValue → Nat
  | [] => 0
  | v :: r => sizeOfValue v + sizeOfList r

/-- Total size of the values in a field list. -/
def sizeOfFields : List (List Char × JsonValue) → Nat
  | [] => 0
  | kv :: r => sizeOfValue kv.2 + sizeOfFields r

end

/-- The public `encode` entry point (`encoder.py`): normalize with
`_normalize.normalize_value`, then encode with resolved options. -/
def encode (value : JsonValue) (opts : EncOpts) : List Char :=
  encodeValue (2 * sizeOfValue value + 8) (normalizeValue value) opts

/-! ### specification-side definitions used in theorem statements -/

/-- Specification predicate for escape validity, from the spec's words: a
string is rejected exactly when a backslash is followed by a character
other than `n`, `t`, `r`, backslash, double quote, or ends in an
unpaired trailing backslash. -/
def validEscapes : List Char → Bool
  | [] => true
  | ['\\'] => false
  | '\\' :: c :: rest =>
    (c = 'n' || c = 't' || c = 'r' || c = '\\' || c = '"') && validEscapes rest
  | _ :: rest => validEscapes rest

/-- Specification-side replacement of the five escape sequences by their
characters (meaningful on inputs satisfying `validEscapes`). -/
def replaceEscapes : List Char → List Char
  | [] => []
  | ['\\'] => ['\\']
  | '\\' :: c :: rest =>
    (if c = 'n' then '\n' else if c = 't' then '\t' else if c = 'r' then '\r' else c) ::
      replaceEscapes rest
  | c :: rest => c :: replaceEscapes rest

/-- Whether an `Except` result is a success. -/
def exceptIsOk : Except (List Char) (List Char) → Bool
  | .ok _ => true
  | .error _ => false

/-- The bracket segment of a header line: the characters strictly
between the first `[` and the following `]`. -/
def bracketSegment (line : List Char) : List Char :=
  ((line.dropWhile (fun c => c ≠ '[')).drop 1).takeWhile (fun c => c ≠ ']')

/-- Leading-space count of a raw line, as the scanner computes it. -/
def lineIndent (raw : List Char) : Nat :=
  (raw.takeWhile (fun c => c = ' ')).length

/-- Whether a raw line is blank: its content after indent removal is
whitespace-only. -/
def lineBlank (raw : List Char) : Bool :=
  pyStrip (raw.drop (lineIndent raw)) = []

/-- Length of the leading-whitespace run (spaces and tabs) of a raw
line. -/
def lineWsRun (raw : List Char) : Nat :=
  (raw.takeWhile (fun c => c = ' ' || c = '\t')).length

/-- Whether a raw line has a tab somewhere in its leading-whitespace
run. -/
def lineHasTabInWs (raw : List Char) : Bool :=
  (raw.take (lineWsRun raw)).contains '\t'

/-- Per-character effect of `escape_string` (used to reason about the
five chained replacements). -/
def escHead (c : Char) : List Char :=
  if c = '\\' then ['\\', '\\']
  else if c = '"' then ['\\', '"']
  else if c = '\n' then ['\\', 'n']
  else if c = '\r' then ['\\', 'r']
  else if c = '\t' then ['\\', 't']
  else [c]

/-!
## Shared helper lemmas
-/

/-- Bind of a success computes the continuation. -/
theorem exc_bind_ok {α β : Type} (x : α) (f : α → Except (List Char) β) :
    (Except.ok x >>= f) = f x := rfl

/-- Bind of an error propagates the error. -/
theorem exc_bind_error {α β : Type} (e : List Char) (f : α → Except (List Char) β) :
    ((Except.error e : Except (List Char) α) >>= f) = .error e := rfl

/-- `replChar` distributes over append. -/
theorem replChar_append (a b : List Char) (t : Char) (r : List Char) :
    replChar (a ++ b) t r = replChar a t r ++ replChar b t r := by
  induction a with
  | nil => rfl
  | cons c a ih => simp [replChar, ih]

/-- The five chained replacements of `escape_string` act per character. -/
theorem escapeString_cons (c : Char) (s : List Char) :
    escapeString (c :: s) = escHead c ++ escapeString s := by
  by_cases h1 : c = '\\'
  · subst h1; simp [escapeString, escHead, replChar, replChar_append]
  · by_cases h2 : c = '"'
    · subst h2; simp [escapeString, escHead, replChar, replChar_append, h1]
    · by_cases h3 : c = '\n'
      · subst h3; simp [escapeString, escHead, replChar, replChar_append, h1, h2]
      · by_cases h4 : c = '\r'
        · subst h4; simp [escapeString, escHead, replChar, replChar_append, h1, h2, h3]
        · by_cases h5 : c = '\t'
          · subst h5
            simp [escapeString, escHead, replChar, replChar_append, h1, h2, h3, h4]
          · simp [escapeString, escHead, replChar, replChar_append, h1, h2, h3, h4, h5]

/-- Decoder-side unescaping inverts encoder-side escaping. -/
theorem unescape_escapeString (s : List Char) :
    unescapeString (escapeString s) = .ok s := by
  induction s with
  | nil => rfl
  | cons c s ih =>
    rw [escapeString_cons]
    by_cases h1 : c = '\\'
    · subst h1; simp [escHead, unescapeString, Except.map, ih]
    · by_cases h2 : c = '"'
      · subst h2; simp [escHead, unescapeString, Except.map, ih, h1]
      · by_cases h3 : c = '\n'
        · subst h3; simp [escHead, unescapeString, Except.map, ih, h1, h2]
        · by_cases h4 : c = '\r'
          · subst h4; simp [escHead, unescapeString, Except.map, ih, h1, h2, h3]
          · by_cases h5 : c = '\t'
            · subst h5; simp [escHead, unescapeString, Except.map, ih, h1, h2, h3, h4]
            · simp [escHead, unescapeString, Except.map, ih, h1, h2, h3, h4, h5]

/-- Mapping a success function does not change success. -/
theorem exceptIsOk_map (f : List Char → List Char) (e : Except (List Char) (List Char)) :
    exceptIsOk (e.map f) = exceptIsOk e := by
  cases e <;> rfl

/-- A whitespace-only string strips to the empty string. -/
theorem pyStrip_eq_nil (s : List Char) (h : ∀ c ∈ s, isPySpace c = true) :
    pyStrip s = [] := by
  unfold pyStrip
  have h1 : s.dropWhile isPySpace = [] := by
    rw [List.dropWhile_eq_nil_iff]; exact h
  simp [h1]

/-- `digitChar` of a value below ten is a decimal digit. -/
theorem isDig_digitChar (n : Nat) (h : n < 10) : isDig (digitChar n) = true := by
  interval_cases n <;> decide

/-- Every character `pyStrNatAux` emits under sufficient fuel is a
digit. -/
theorem pyStrNatAux_digits :
    ∀ fuel n, n ≤ fuel → ∀ c ∈ pyStrNatAux fuel n, isDig c = true := by
  intro fuel
  induction fuel with
  | zero =>
    intro n hn c hc
    interval_cases n
    simp [pyStrNatAux] at hc
    subst hc
    decide
  | succ f ih =>
    intro n hn c hc
    unfold pyStrNatAux at hc
    split at hc
    · next h10 =>
      simp at hc
      subst hc
      exact isDig_digitChar n h10
    · next h10 =>
      simp at hc
      rcases hc with hc | hc
      · exact ih (n / 10) (by omega) c hc
      · subst hc
        exact isDig_digitChar (n % 10) (Nat.mod_lt _ (by norm_num))

/-- Every character of `pyStrNat n` is a digit. -/
theorem pyStrNat_all_digits (n : Nat) : ∀ c ∈ pyStrNat n, isDig c = true :=
  pyStrNatAux_digits n n le_rfl


/-!
## Claim theorems
-/

/-- C10: for every string `s`, `unescape_string(escape_string(s)) == s`:
the encoder-side escaping and decoder-side unescaping are mutually
inverse, and escaping never produces output that unescaping rejects. -/
theorem C10_escape_unescape_inverse (s : List Char) :
    unescapeString (escapeString s) = .ok s ∧
    exceptIsOk (unescapeString (escapeString s)) = true := by
  refine ⟨unescape_escapeString s, ?_⟩
  rw [unescape_escapeString s]
  rfl

/-- C8: `unescape_string` fails exactly on inputs with an invalid escape
pair or an unpaired trailing backslash, and otherwise returns the input
with the five escape sequences replaced by their characters (the
function takes no mode flag, so the behaviour is identical in strict and
lenient decoding). -/
theorem C8_unescape_rejects_exactly_invalid (s : List Char) :
    exceptIsOk (unescapeString s) = validEscapes s ∧
    (validEscapes s = true → unescapeString s = .ok (replaceEscapes s)) := by
  induction s using unescapeString.induct with
  | case1 => exact ⟨rfl, fun _ => rfl⟩
  | case2 => exact ⟨rfl, fun h => by simp [validEscapes] at h⟩
  | case3 rest ih =>
    refine ⟨?_, fun h => ?_⟩
    · simp [unescapeString, validEscapes, exceptIsOk_map, ih.1]
    · have hrest : validEscapes rest = true := by simpa [validEscapes] using h
      simp [unescapeString, ih.2 hrest, Except.map, replaceEscapes]
  | case4 rest h1 ih =>
    refine ⟨?_, fun h => ?_⟩
    · simp [unescapeString, validEscapes, exceptIsOk_map, ih.1]
    · have hrest : validEscapes rest = true := by simpa [validEscapes] using h
      simp [unescapeString, ih.2 hrest, Except.map, replaceEscapes]
  | case5 rest h1 h2 ih =>
    refine ⟨?_, fun h => ?_⟩
    · simp [unescapeString, validEscapes, exceptIsOk_map, ih.1]
    · have hrest : validEscapes rest = true := by simpa [validEscapes] using h
      simp [unescapeString, ih.2 hrest, Except.map, replaceEscapes]
  | case6 rest h1 h2 h3 ih =>
    refine ⟨?_, fun h => ?_⟩
    · simp [unescapeString, validEscapes, exceptIsOk_map, ih.1]
    · have hrest : validEscapes rest = true := by simpa [validEscapes] using h
      simp [unescapeString, ih.2 hrest, Except.map, replaceEscapes]
  | case7 rest h1 h2 h3 h4 ih =>
    refine ⟨?_, fun h => ?_⟩
    · simp [unescapeString, validEscapes, exceptIsOk_map, ih.1]
    · have hrest : validEscapes rest = true := by simpa [validEscapes] using h
      simp [unescapeString, ih.2 hrest, Except.map, replaceEscapes]
  | case8 c rest h1 h2 h3 h4 h5 =>
    refine ⟨?_, fun h => ?_⟩
    · simp [unescapeString, validEscapes, exceptIsOk, h1, h2, h3, h4, h5]
    · simp [validEscapes, h1, h2, h3, h4, h5] at h
  | case9 c rest hc ih =>
    have hcn : ¬ c = '\\' := fun h => hc h
    refine ⟨?_, fun h => ?_⟩
    · simp [unescapeString, validEscapes, exceptIsOk_map, ih.1, hcn]
    · have hrest : validEscapes rest = true := by
        simpa [validEscapes, hcn] using h
      simp [unescapeString, ih.2 hrest, Except.map, replaceEscapes, hcn]

/-- Witness for C8 at the concrete input `h\ni`. -/
theorem C8_witness :
    exceptIsOk (unescapeString ['h', '\\', 'n', 'i'])
        = validEscapes ['h', '\\', 'n', 'i'] ∧
    unescapeString ['h', '\\', 'n', 'i'] = .ok ['h', '\n', 'i'] :=
  ⟨(C8_unescape_rejects_exactly_invalid ['h', '\\', 'n', 'i']).1,
   (C8_unescape_rejects_exactly_invalid ['h', '\\', 'n', 'i']).2 rfl⟩

/-- C9: decoding an empty or whitespace-only input returns the empty
object and never raises, in both strict and lenient modes and for every
indent width. -/
theorem C9_blank_input_decodes_to_empty_object :
    ∀ (s : List Char) (w : Nat) (strict : Bool),
    (∀ c ∈ s, isPySpace c = true) → decode s w strict = .ok (.obj []) := by
  intro s w strict h
  have hs : pyStrip s = [] := pyStrip_eq_nil s h
  unfold decode
  obtain ⟨k, hk⟩ : ∃ k, decodeDefaultFuel s = k + 1 :=
    ⟨(s.length + 2) * (s.length + 2) + 63, by unfold decodeDefaultFuel; omega⟩
  rw [hk]
  simp [decodeToon, toParsedLines, hs, exc_bind_ok]

/-- Witness for C9 at the empty input and a whitespace-only input. -/
theorem C9_witness :
    decode [] 2 true = .ok (.obj []) ∧
    decode [' ', '\n', '\t', ' '] 3 false = .ok (.obj []) :=
  ⟨C9_blank_input_decodes_to_empty_object [] 2 true (by simp),
   C9_blank_input_decodes_to_empty_object [' ', '\n', '\t', ' '] 3 false (by decide)⟩

/-- C4: the failing input.  The set branch of `_normalize.normalize_value`
(the normalizer the public `encode` imports) returns the elements in the
set's iteration order with no sorting, so for a string set whose
iteration order is `zebra, apple, mango` it does not return the sorted
array the claim (and the sibling `normalize.py`, and the repository's
own tests) require. -/
theorem C4_public_normalizer_does_not_sort_sets :
    normalizeSetU [.str "zebra".data, .str "apple".data, .str "mango".data]
      = [.str "zebra".data, .str "apple".data, .str "mango".data] ∧
    normalizeSetSortedStrs ["zebra".data, "apple".data, "mango".data]
      = [.str "apple".data, .str "mango".data, .str "zebra".data] ∧
    normalizeSetU [.str "zebra".data, .str "apple".data, .str "mango".data]
      ≠ normalizeSetSortedStrs ["zebra".data, "apple".data, "mango".data] := by
  refine ⟨rfl, rfl, ?_⟩
  intro h
  simp [normalizeSetU, normalizeList, normalizeValue, normalizeSetSortedStrs,
    pySortedStrs, lexInsert, lexLt] at h

/-- C1: the failing input.  Tabular encoding accepts rows whose key
order differs from the header and tabular decoding rebuilds every row in
header order, so `decode(encode(v))` with default options changes the
second object's key order: the round trip is not exact. -/
theorem C1_tabular_roundtrip_loses_key_order :
    encode (.arr [.obj [("a".data, .int 1), ("b".data, .int 2)],
                  .obj [("b".data, .int 3), ("a".data, .int 4)]]) defaultEncOpts
      = "[2]\x7ba,b\x7d:\n  1,2\n  4,3".data ∧
    decode "[2]\x7ba,b\x7d:\n  1,2\n  4,3".data 2 true
      = .ok (.arr [.obj [("a".data, .int 1), ("b".data, .int 2)],
                   .obj [("a".data, .int 4), ("b".data, .int 3)]]) ∧
    (JsonValue.arr [.obj [("a".data, .int 1), ("b".data, .int 2)],
                    .obj [("a".data, .int 4), ("b".data, .int 3)]]
      ≠ .arr [.obj [("a".data, .int 1), ("b".data, .int 2)],
              .obj [("b".data, .int 3), ("a".data, .int 4)]]) := by
  refine ⟨rfl, rfl, ?_⟩
  intro h
  simp at h


theorem C3_delim_in_bracket_iff_non_comma :
    ∀ (len : Nat) (d : Char) (marker : Option (List Char)),
    (d = ',' ∨ d = '\t' ∨ d = '|') →
    (∀ m, marker = some m → d ∉ m) →
    ((formatHeaderBracket len d marker).contains d = true ↔ (d = '\t' ∨ d = '|')) := by
  intro len d marker hd hm
  constructor
  · intro hcontains
    rcases hd with h | h | h
    · exfalso
      subst h
      unfold formatHeaderBracket at hcontains
      simp at hcontains
      rcases hcontains with hc | hc
      · rcases hmk : marker with _ | m
        · simp [strIfMarker, hmk] at hc
        · by_cases hm0 : m = []
          · simp [strIfMarker, hmk, hm0] at hc
          · simp [strIfMarker, hmk, hm0] at hc
            exact hm m hmk hc
      · have := pyStrNat_all_digits len ',' hc
        simp [isDig] at this
    · exact Or.inl h
    · exact Or.inr h
  · intro h
    have hne : d ≠ ',' := by rcases h with h | h <;> subst h <;> decide
    unfold formatHeaderBracket
    simp [hne]

theorem C3_witness :
    (formatHeaderBracket 2 '\t' none).contains '\t' = true ∧
    (formatHeaderBracket 2 ',' (some ['#'])).contains ',' = false := by
  constructor
  · exact (C3_delim_in_bracket_iff_non_comma 2 '\t' none (by decide)
      (fun m hm => by cases hm)).2 (Or.inl rfl)
  · have := C3_delim_in_bracket_iff_non_comma 2 ',' (some ['#'])
      (by decide) (by intro m hm; cases hm; decide)
    rcases hb : (formatHeaderBracket 2 ',' (some ['#'])).contains ',' with _ | _
    · rfl
    · exact absurd (this.1 hb) (by decide)

theorem C3_counterexample :
    encode (.arr [.obj [("a".data, .int 1)], .obj [("a".data, .int 2)]]) defaultEncOpts
      = "[2]\x7ba\x7d:\n  1\n  2".data ∧
    bracketSegment
        (encode (.arr [.obj [("a".data, .int 1)], .obj [("a".data, .int 2)]])
          defaultEncOpts)
      = ['2'] ∧
    (bracketSegment
        (encode (.arr [.obj [("a".data, .int 1)], .obj [("a".data, .int 2)]])
          defaultEncOpts)).contains ',' = false :=
  ⟨rfl, rfl, rfl⟩


theorem pyStrip_wrapped (a b : Char) (l : List Char) (ha : isPySpace a = false)
    (hb : isPySpace b = false) : pyStrip (a :: (l ++ [b])) = a :: (l ++ [b]) := by
  unfold pyStrip
  rw [List.dropWhile_cons]
  simp only [ha, Bool.false_eq_true, if_false]
  have hrev : (a :: (l ++ [b])).reverse = b :: (l.reverse ++ [a]) := by simp
  rw [hrev, List.dropWhile_cons]
  simp only [hb, Bool.false_eq_true, if_false]
  simp

theorem parsePrimitive_quoted (t : List Char) :
    parsePrimitive ('"' :: (escapeString t ++ ['"'])) = .ok (.str t) := by
  unfold parsePrimitive
  rw [pyStrip_wrapped '"' '"' (escapeString t) (by decide) (by decide)]
  have hlast : ('"' :: (escapeString t ++ ['"'])).getLastD ' ' = '"' := by
    have h1 : ('"' :: (escapeString t ++ ['"'])) = ('"' :: escapeString t) ++ ['"'] := by
      simp
    rw [h1, List.getLastD_eq_getLast?, List.getLast?_concat]
    rfl
  have hlen : ¬ ('"' :: (escapeString t ++ ['"'])).length < 2 := by simp
  simp only [List.headD_cons, if_pos rfl, hlast, hlen]
  simp only [List.drop_succ_cons, List.drop_zero, List.dropLast_concat]
  rw [unescape_escapeString]
  rfl


theorem takeWhile_eq_self_of (p : Char → Bool) (l : List Char)
    (h : ∀ c ∈ l, p c = true) : l.takeWhile p = l := by
  induction l with
  | nil => rfl
  | cons a t ih =>
    rw [List.takeWhile_cons, if_pos (h a (by simp))]
    rw [ih (fun c hc => h c (by simp [hc]))]

theorem isPySpace_false_of_isDig (c : Char) (h : isDig c = true) :
    isPySpace c = false := by
  rcases hsp : isPySpace c
  · rfl
  · exfalso
    have hd : c = ' ' ∨ c = '\t' ∨ c = '\n' ∨ c = '\r' ∨ c = '\x0b' ∨ c = '\x0c' := by
      simpa [isPySpace, or_assoc] using hsp
    rcases hd with h1 | h1 | h1 | h1 | h1 | h1 <;> subst h1 <;>
      exact absurd h (by decide)

theorem isDig_not_special (c : Char) (h : isDig c = true) :
    c ≠ '\\' ∧ c ≠ '"' ∧ c ≠ '\n' ∧ c ≠ '\r' ∧ c ≠ '\t' := by
  refine ⟨?_, ?_, ?_, ?_, ?_⟩ <;> intro heq <;> subst heq <;> exact absurd h (by decide)

theorem pyStrip_id_of (l : List Char) (h : ∀ c ∈ l, isPySpace c = false) :
    pyStrip l = l := by
  unfold pyStrip
  have h1 : l.dropWhile isPySpace = l := by
    cases l with
    | nil => rfl
    | cons a t => rw [List.dropWhile_cons, if_neg (by simp [h a (by simp)])]
  rw [h1]
  have h2 : l.reverse.dropWhile isPySpace = l.reverse := by
    cases hr : l.reverse with
    | nil => rfl
    | cons a t =>
      have ha : a ∈ l := by
        rw [← List.mem_reverse, hr]; simp
      rw [List.dropWhile_cons, if_neg (by simp [h a ha])]
  rw [h2, List.reverse_reverse]

theorem escapeString_id_of (s : List Char)
    (h : ∀ c ∈ s, c ≠ '\\' ∧ c ≠ '"' ∧ c ≠ '\n' ∧ c ≠ '\r' ∧ c ≠ '\t') :
    escapeString s = s := by
  induction s with
  | nil => rfl
  | cons c t ih =>
    rw [escapeString_cons]
    have hc := h c (by simp)
    rw [ih (fun x hx => h x (by simp [hx]))]
    simp [escHead, hc.1, hc.2.1, hc.2.2.1, hc.2.2.2.1, hc.2.2.2.2]

theorem C5_amended_leading_zero_tokens :
    (∀ (c : Char) (rest t : List Char),
        (t = '0' :: c :: rest ∨ t = '-' :: '0' :: c :: rest) → c ≠ '.' →
        pyStrip t = t → parsePrimitive t = .ok (.str t)) ∧
    decode "code: 05".data 2 true = .ok (.obj [("code".data, .str "05".data)]) ∧
    (∀ ds : List Char, ds ≠ [] → (∀ c ∈ ds, isDig c = true) → ∀ d : Char,
        isNumericLike ('0' :: ds) = true ∧
        isNumericLike ('-' :: '0' :: ds) = true ∧
        encodeStringLiteral ('0' :: ds) d = '"' :: (('0' :: ds) ++ ['"']) ∧
        encodeStringLiteral ('-' :: '0' :: ds) d = '"' :: (('-' :: '0' :: ds) ++ ['"']) ∧
        parsePrimitive (encodeStringLiteral ('0' :: ds) d) = .ok (.str ('0' :: ds)) ∧
        parsePrimitive (encodeStringLiteral ('-' :: '0' :: ds) d)
          = .ok (.str ('-' :: '0' :: ds))) := by
  refine ⟨?_, rfl, ?_⟩
  · intro c rest t ht hc hstrip
    rcases ht with rfl | rfl
    · have hnum : isNumericLiteral ('0' :: c :: rest) = false := by
        unfold isNumericLiteral
        simp [hc]
      have hb : isBooleanOrNullLiteral ('0' :: c :: rest) = false := by
        simp [isBooleanOrNullLiteral]
      unfold parsePrimitive
      simp [hstrip, hb, hnum]
    · have hnum : isNumericLiteral ('-' :: '0' :: c :: rest) = false := by
        unfold isNumericLiteral
        simp [hc]
      have hb : isBooleanOrNullLiteral ('-' :: '0' :: c :: rest) = false := by
        simp [isBooleanOrNullLiteral]
      unfold parsePrimitive
      simp [hstrip, hb, hnum]
  · intro ds hne hdig d
    have htw : ds.takeWhile isDig = ds := takeWhile_eq_self_of isDig ds hdig
    have hdw : ds.dropWhile isDig = [] := List.dropWhile_eq_nil_iff.mpr hdig
    have hnum0 : matchesNumericRegex ('0' :: ds) = true := by
      unfold matchesNumericRegex
      simp [List.takeWhile_cons, List.dropWhile_cons, htw, hdw, floatExpTail, isDig]
    have hnumm : matchesNumericRegex ('-' :: '0' :: ds) = true := by
      unfold matchesNumericRegex
      simp [List.takeWhile_cons, List.dropWhile_cons, htw, hdw, floatExpTail, isDig]
    have hlike0 : isNumericLike ('0' :: ds) = true := by
      simp [isNumericLike, hnum0]
    have hlikem : isNumericLike ('-' :: '0' :: ds) = true := by
      simp [isNumericLike, hnumm]
    have hns : ∀ c ∈ ds, isPySpace c = false :=
      fun c hcm => isPySpace_false_of_isDig c (hdig c hcm)
    have hstrip0 : pyStrip ('0' :: ds) = '0' :: ds := by
      refine pyStrip_id_of _ ?_
      intro c hcm
      rcases List.mem_cons.mp hcm with rfl | hcm
      · decide
      · exact hns c hcm
    have hstripm : pyStrip ('-' :: '0' :: ds) = '-' :: '0' :: ds := by
      refine pyStrip_id_of _ ?_
      intro c hcm
      rcases List.mem_cons.mp hcm with rfl | hcm
      · decide
      · rcases List.mem_cons.mp hcm with rfl | hcm
        · decide
        · exact hns c hcm
    have hsafe0 : isSafeUnquoted ('0' :: ds) d = false := by
      unfold isSafeUnquoted
      simp [hstrip0, hlike0]
    have hsafem : isSafeUnquoted ('-' :: '0' :: ds) d = false := by
      unfold isSafeUnquoted
      simp [hstripm, hlikem]
    have hesc0 : escapeString ('0' :: ds) = '0' :: ds := by
      refine escapeString_id_of _ ?_
      intro c hcm
      rcases List.mem_cons.mp hcm with rfl | hcm
      · exact ⟨by decide, by decide, by decide, by decide, by decide⟩
      · exact isDig_not_special c (hdig c hcm)
    have hescm : escapeString ('-' :: '0' :: ds) = '-' :: '0' :: ds := by
      refine escapeString_id_of _ ?_
      intro c hcm
      rcases List.mem_cons.mp hcm with rfl | hcm
      · exact ⟨by decide, by decide, by decide, by decide, by decide⟩
      · rcases List.mem_cons.mp hcm with rfl | hcm
        · exact ⟨by decide, by decide, by decide, by decide, by decide⟩
        · exact isDig_not_special c (hdig c hcm)
    have henc0 : encodeStringLiteral ('0' :: ds) d = '"' :: (('0' :: ds) ++ ['"']) := by
      unfold encodeStringLiteral
      rw [if_neg (by simp [hsafe0]), hesc0]
    have hencm : encodeStringLiteral ('-' :: '0' :: ds) d
        = '"' :: (('-' :: '0' :: ds) ++ ['"']) := by
      unfold encodeStringLiteral
      rw [if_neg (by simp [hsafem]), hescm]
    refine ⟨hlike0, hlikem, henc0, hencm, ?_, ?_⟩
    · rw [henc0, ← hesc0, parsePrimitive_quoted, hesc0]
    · rw [hencm, ← hescm, parsePrimitive_quoted, hescm]


/-- C5, counterexample: `0x` starts with a zero followed by a character
other than `.`, yet the encoder does not classify it as numeric-like and
emits it unquoted (the decoder still returns it unchanged as a
string). -/
theorem C5_counterexample_0x :
    isNumericLike "0x".data = false ∧
    isSafeUnquoted "0x".data ',' = true ∧
    encodeStringLiteral "0x".data ',' = "0x".data ∧
    parsePrimitive "0x".data = .ok (.str "0x".data) :=
  ⟨rfl, rfl, rfl, rfl⟩

/-- Witness for C5 at the token `05` and delimiter comma. -/
theorem C5_witness :
    parsePrimitive "05".data = .ok (.str "05".data) ∧
    isNumericLike "05".data = true ∧
    encodeStringLiteral "05".data ',' = '"' :: ("05".data ++ ['"']) ∧
    parsePrimitive (encodeStringLiteral "05".data ',') = .ok (.str "05".data) :=
  ⟨C5_amended_leading_zero_tokens.1 '5' [] "05".data (Or.inl rfl) (by decide) rfl,
   (C5_amended_leading_zero_tokens.2.2 ['5'] (by decide) (by decide) ',').1,
   (C5_amended_leading_zero_tokens.2.2 ['5'] (by decide) (by decide) ',').2.2.1,
   (C5_amended_leading_zero_tokens.2.2 ['5'] (by decide) (by decide) ',').2.2.2.2.1⟩


/-- Strict inline decoding only succeeds at the declared length. -/
theorem c2InlineStrict (content : List Char) (d : Char) (N : Int) (r : List JsonValue)
    (h : decodeInlineArray content d N true = .ok r) : (r.length : Int) = N := by
  unfold decodeInlineArray at h
  split at h
  · next hcond =>
    simp at hcond
    obtain ⟨h1, h2⟩ := hcond
    simp at h
    subst h
    simp [h2]
  · cases hm : mapParsePrimitive (parseDelimitedValues content d) with
    | error e => simp only [hm, exc_bind_error] at h; simp at h
    | ok values =>
      simp only [hm, exc_bind_ok] at h
      split at h
      · simp at h
      · next hcond =>
        simp at hcond h
        subst h
        omega

/-- Strict inline decoding fails whenever the parsed token count differs
from the declared length. -/
theorem c2InlineStrictErr (content : List Char) (d : Char) (N : Int)
    (values : List JsonValue)
    (hm : mapParsePrimitive (parseDelimitedValues content d) = .ok values)
    (hne : (values.length : Int) ≠ N) :
    ∃ e, decodeInlineArray content d N true = .error e := by
  unfold decodeInlineArray
  split
  · next hcond =>
    simp at hcond
    obtain ⟨h1, h2⟩ := hcond
    subst h1
    have : values = [] := by
      have h0 : parseDelimitedValues [] d = [] := rfl
      rw [h0] at hm
      simpa [mapParsePrimitive] using hm.symm
    subst this
    simp at hne
    omega
  · simp only [hm, exc_bind_ok]
    split
    · exact ⟨_, rfl⟩
    · next hcond => simp [hne] at hcond

/-- Lenient inline decoding is exactly the parse of the tokens read,
with no padding or truncation and no dependence on the declared
length. -/
theorem c2InlineLenient (content : List Char) (d : Char) (N : Int) :
    decodeInlineArray content d N false
      = mapParsePrimitive (parseDelimitedValues content d) := by
  unfold decodeInlineArray
  split
  · next hcond =>
    simp at hcond
    obtain ⟨h1, _⟩ := hcond
    subst h1
    rfl
  · cases hm : mapParsePrimitive (parseDelimitedValues content d) with
    | error e => simp only [hm, exc_bind_error]
    | ok values => simp [hm, exc_bind_ok]

/-- Strict tabular decoding only succeeds at the declared row count. -/
theorem c2TabularStrict (fuel : Nat) (lines : List ParsedLine) (i hd : Nat)
    (fields : List (List Char)) (d : Char) (N : Int) (r : List JsonValue × Nat)
    (h : decodeTabularArray fuel lines i hd fields d N true = .ok r) :
    (r.1.length : Int) = N := by
  unfold decodeTabularArray at h
  cases hm : decodeTabularRows fuel lines i (hd + 1) fields d true with
  | error e => rw [hm] at h; simp [exc_bind_error] at h
  | ok res =>
    rw [hm] at h
    rw [exc_bind_ok] at h
    split at h
    · simp at h
    · next hcond =>
      simp at hcond h
      subst h
      omega

/-- Lenient tabular decoding is exactly the row loop: the rows actually
read, independent of the declared length. -/
theorem c2TabularLenient (fuel : Nat) (lines : List ParsedLine) (i hd : Nat)
    (fields : List (List Char)) (d : Char) (N : Int) :
    decodeTabularArray fuel lines i hd fields d N false
      = decodeTabularRows fuel lines i (hd + 1) fields d false := by
  unfold decodeTabularArray
  cases hm : decodeTabularRows fuel lines i (hd + 1) fields d false with
  | error e => rw [exc_bind_error]
  | ok res => rw [exc_bind_ok]; simp

/-- Strict list decoding only succeeds at the declared item count. -/
theorem c2ListStrict (fuel : Nat) (lines : List ParsedLine) (i hd : Nat)
    (d : Char) (N : Int) (r : List JsonValue × Nat)
    (h : decodeListArray fuel lines i hd d N true = .ok r) :
    (r.1.length : Int) = N := by
  match fuel with
  | 0 => simp [decodeListArray] at h
  | fuel + 1 =>
    unfold decodeListArray at h
    cases hm : decodeListLoop fuel lines i (hd + 1) d true with
    | error e => rw [hm] at h; simp [exc_bind_error] at h
    | ok res =>
      rw [hm] at h
      rw [exc_bind_ok] at h
      split at h
      · simp at h
      · next hcond =>
        simp at hcond h
        subst h
        omega

/-- Lenient list decoding is exactly the item loop: the items actually
read, independent of the declared length. -/
theorem c2ListLenient (fuel : Nat) (lines : List ParsedLine) (i hd : Nat)
    (d : Char) (N : Int) :
    decodeListArray (fuel + 1) lines i hd d N false
      = decodeListLoop fuel lines i (hd + 1) d false := by
  unfold decodeListArray
  cases hm : decodeListLoop fuel lines i (hd + 1) d false with
  | error e => rw [exc_bind_error]
  | ok res => rw [exc_bind_ok]; simp

/-- C2: `decode("items[3]: a,b")` raises "expected 3, got 2" in strict
mode and returns `{"items": ["a", "b"]}` in lenient mode; in general,
strict decoding of inline, tabular and list arrays succeeds only when
the number of values, rows or items read equals the declared length and
fails on a parsed-count mismatch, while lenient decoding returns exactly
what was read, with no padding or truncation and no dependence on the
declared length. -/
theorem C2_strict_rejects_lenient_accepts :
    decode "items[3]: a,b".data 2 true = .error "Expected 3 values, but got 2".data ∧
    decode "items[3]: a,b".data 2 false
      = .ok (.obj [("items".data, .arr [.str ['a'], .str ['b']])]) ∧
    (∀ (content : List Char) (d : Char) (N : Int) (r : List JsonValue),
      decodeInlineArray content d N true = .ok r → (r.length : Int) = N) ∧
    (∀ (content : List Char) (d : Char) (N : Int) (values : List JsonValue),
      mapParsePrimitive (parseDelimitedValues content d) = .ok values →
      (values.length : Int) ≠ N → ∃ e, decodeInlineArray content d N true = .error e) ∧
    (∀ (content : List Char) (d : Char) (N : Int),
      decodeInlineArray content d N false
        = mapParsePrimitive (parseDelimitedValues content d)) ∧
    (∀ (fuel : Nat) (lines : List ParsedLine) (i hd : Nat) (fields : List (List Char))
        (d : Char) (N : Int) (r : List JsonValue × Nat),
      decodeTabularArray fuel lines i hd fields d N true = .ok r →
      (r.1.length : Int) = N) ∧
    (∀ (fuel : Nat) (lines : List ParsedLine) (i hd : Nat) (fields : List (List Char))
        (d : Char) (N : Int),
      decodeTabularArray fuel lines i hd fields d N false
        = decodeTabularRows fuel lines i (hd + 1) fields d false) ∧
    (∀ (fuel : Nat) (lines : List ParsedLine) (i hd : Nat) (d : Char) (N : Int)
        (r : List JsonValue × Nat),
      decodeListArray fuel lines i hd d N true = .ok r → (r.1.length : Int) = N) ∧
    (∀ (fuel : Nat) (lines : List ParsedLine) (i hd : Nat) (d : Char) (N : Int),
      decodeListArray (fuel + 1) lines i hd d N false
        = decodeListLoop fuel lines i (hd + 1) d false) :=
  ⟨rfl, rfl, c2InlineStrict, c2InlineStrictErr, c2InlineLenient, c2TabularStrict,
   c2TabularLenient, c2ListStrict, c2ListLenient⟩

/-- Witness for C2: the strict-mode checks instantiated at concrete
inputs. -/
theorem C2_witness :
    (([JsonValue.str ['a'], JsonValue.str ['b']].length : Int) = 2) ∧
    (∃ e, decodeInlineArray "a,b".data ',' 3 true = .error e) ∧
    (([JsonValue.obj [("a".data, .int 1), ("b".data, .int 2)]].length : Int) = 1) ∧
    (([JsonValue.str ['x']].length : Int) = 1) :=
  ⟨C2_strict_rejects_lenient_accepts.2.2.1 "a,b".data ',' 2
      [JsonValue.str ['a'], JsonValue.str ['b']] rfl,
   C2_strict_rejects_lenient_accepts.2.2.2.1 "a,b".data ',' 3
      [JsonValue.str ['a'], JsonValue.str ['b']] rfl (by decide),
   C2_strict_rejects_lenient_accepts.2.2.2.2.2.1 3
      [⟨"  1,2".data, 1, 2, "1,2".data, 2⟩] 0 0 ["a".data, "b".data] ',' 1
      ([JsonValue.obj [("a".data, .int 1), ("b".data, .int 2)]], 1) rfl,
   C2_strict_rejects_lenient_accepts.2.2.2.2.2.2.2.1 5
      [⟨"  - x".data, 1, 2, "- x".data, 2⟩] 0 0 ',' 1
      ([JsonValue.str ['x']], 1) rfl⟩


theorem scanLine_error_of_bad (raw : List Char) (n w : Nat)
    (hnb : lineBlank raw = false)
    (hbad : lineHasTabInWs raw = true ∨ lineIndent raw % w ≠ 0) :
    ∃ e, scanLine raw n w true = .error e := by
  cases hres : scanLine raw n w true with
  | error e => exact ⟨e, rfl⟩
  | ok p =>
    exfalso
    have hnb' : decide (pyStrip (raw.drop ((raw.takeWhile (fun c => c = ' ')).length)) = [])
        = false := hnb
    unfold scanLine at hres
    simp only [hnb', Bool.not_false, Bool.and_true] at hres
    split at hres
    · split at hres
      · exact absurd hres (by simp)
      · split at hres
        · exact absurd hres (by simp)
        · next hc1 hc2 =>
          rcases hbad with hbad | hbad
          · exact hc1 (by simpa [lineHasTabInWs, lineWsRun] using hbad)
          · simp only [lineIndent] at hbad
            have h0 : (raw.takeWhile (fun c => c = ' ')).length = 0 := by
              by_contra hnz
              exact hc2 (by simp [Nat.pos_of_ne_zero hnz, hbad])
            rw [h0] at hbad
            simp at hbad
    · next hfalse => exact hfalse trivial


theorem scanLine_ok_of_good (raw : List Char) (n w : Nat)
    (hgood : lineBlank raw = true ∨
      (lineHasTabInWs raw = false ∧ lineIndent raw % w = 0)) :
    ∃ p, scanLine raw n w true = .ok p := by
  cases hres : scanLine raw n w true with
  | ok p => exact ⟨p, rfl⟩
  | error e =>
    exfalso
    unfold scanLine at hres
    by_cases hb : lineBlank raw = true
    · have hb' : decide (pyStrip (raw.drop ((raw.takeWhile (fun c => c = ' ')).length)) = [])
          = true := hb
      simp only [hb', Bool.not_true, Bool.and_false] at hres
      simp at hres
    · have hb2 : lineBlank raw = false := by simpa using hb
      have hb' : decide (pyStrip (raw.drop ((raw.takeWhile (fun c => c = ' ')).length)) = [])
          = false := hb2
      have hgood' : lineHasTabInWs raw = false ∧ lineIndent raw % w = 0 := by
        rcases hgood with hgood | hgood
        · exact absurd hgood hb
        · exact hgood
      simp only [hb', Bool.not_false, Bool.and_true] at hres
      split at hres
      · split at hres
        · next htab =>
          exact absurd htab (by simpa [lineHasTabInWs, lineWsRun] using hgood'.1)
        · split at hres
          · next hind =>
            simp only [Bool.and_eq_true, decide_eq_true_eq] at hind
            exact absurd hgood'.2 (by simpa [lineIndent] using hind.2)
          · simp at hres
      · simp at hres

theorem scanLine_shape (raw : List Char) (n w : Nat) (strict : Bool)
    (p : ParsedLine × Option BlankLineInfo)
    (h : scanLine raw n w strict = .ok p) :
    p.1 = ⟨raw, computeDepthFromIndent (lineIndent raw) w, lineIndent raw,
           raw.drop (lineIndent raw), n⟩ ∧
    (p.2 = none ∨
      p.2 = some ⟨n, lineIndent raw, computeDepthFromIndent (lineIndent raw) w⟩) := by
  unfold scanLine at h
  by_cases hb : pyStrip (List.drop ((raw.takeWhile (fun c => c = ' ')).length) raw) = []
  · have hb' : decide (pyStrip (List.drop ((raw.takeWhile (fun c => c = ' ')).length) raw)
        = []) = true := by simp [hb]
    simp only [hb', Bool.not_true, Bool.and_false, Bool.false_eq_true, if_false,
      if_pos hb] at h
    simp only [Except.ok.injEq] at h
    subst h
    exact ⟨rfl, Or.inr rfl⟩
  · have hb' : decide (pyStrip (List.drop ((raw.takeWhile (fun c => c = ' ')).length) raw)
        = []) = false := by simp [hb]
    simp only [hb', Bool.not_false, Bool.and_true, if_neg hb] at h
    cases strict with
    | false =>
      simp only [Bool.false_eq_true, if_false] at h
      simp only [Except.ok.injEq] at h
      subst h
      exact ⟨rfl, Or.inl rfl⟩
    | true =>
      split at h
      · split at h
        · simp at h
        · split at h
          · simp at h
          · simp only [Except.ok.injEq] at h
            subst h
            exact ⟨rfl, Or.inl rfl⟩
      · simp only [Except.ok.injEq] at h
        subst h
        exact ⟨rfl, Or.inl rfl⟩

theorem pyStrip_ne_nil_of_mem (s : List Char) (c : Char) (hc : c ∈ s)
    (hcs : isPySpace c = false) : pyStrip s ≠ [] := by
  intro h
  unfold pyStrip at h
  rw [List.reverse_eq_nil_iff] at h
  rw [List.dropWhile_eq_nil_iff] at h
  have hall : ∀ x ∈ s.dropWhile isPySpace, isPySpace x = true := by
    intro x hx
    exact h x (by simpa using hx)
  have hsplit : s.takeWhile isPySpace ++ s.dropWhile isPySpace = s :=
    List.takeWhile_append_dropWhile isPySpace s
  rw [← hsplit] at hc
  rcases List.mem_append.mp hc with hc | hc
  · exact absurd (List.mem_takeWhile_imp hc) (by simp [hcs])
  · exact absurd (hall c hc) (by simp [hcs])

theorem lineBlank_false_ex (raw : List Char) (h : lineBlank raw = false) :
    ∃ c ∈ raw, isPySpace c = false := by
  by_contra hall
  push_neg at hall
  have hall' : ∀ c ∈ raw.drop (lineIndent raw), isPySpace c = true := by
    intro c hc
    have := hall c (List.mem_of_mem_drop hc)
    simpa using this
  have : pyStrip (raw.drop (lineIndent raw)) = [] := pyStrip_eq_nil _ hall'
  unfold lineBlank at h
  rw [this] at h
  simp at h

theorem mem_pySplitNl_subset (s : List Char) :
    ∀ raw ∈ pySplitNl s, ∀ c ∈ raw, c ∈ s := by
  induction s with
  | nil =>
    intro raw hraw c hc
    simp [pySplitNl] at hraw
    subst hraw
    cases hc
  | cons a t ih =>
    intro raw hraw c hc
    rcases hps : pySplitNl t with _ | ⟨h0, rest⟩
    · have heq : pySplitNl (a :: t) = [[]] := by
        unfold pySplitNl
        rw [hps]
      rw [heq] at hraw
      simp at hraw
      subst hraw
      cases hc
    · have heq : pySplitNl (a :: t)
          = if a = '\n' then [] :: h0 :: rest else (a :: h0) :: rest := by
        unfold pySplitNl
        rw [hps]
      rw [heq] at hraw
      by_cases ha : a = '\n'
      · rw [if_pos ha] at hraw
        rcases List.mem_cons.mp hraw with rfl | hraw
        · cases hc
        · have : c ∈ t := ih raw (by rw [hps]; exact hraw) c hc
          exact List.mem_cons_of_mem a this
      · rw [if_neg ha] at hraw
        rcases List.mem_cons.mp hraw with rfl | hraw
        · rcases List.mem_cons.mp hc with rfl | hc
          · exact List.mem_cons_self _ _
          · have : c ∈ t := ih h0 (by rw [hps]; exact List.mem_cons_self h0 rest) c hc
            exact List.mem_cons_of_mem a this
        · have : c ∈ t := ih raw (by rw [hps]; exact List.mem_cons_of_mem h0 hraw) c hc
          exact List.mem_cons_of_mem a this


theorem auxError (w : Nat) (rawList : List (List Char)) :
    ∀ i : Nat, (∃ raw ∈ rawList, lineBlank raw = false ∧
      (lineHasTabInWs raw = true ∨ lineIndent raw % w ≠ 0)) →
    ∃ e, toParsedLinesAux w true rawList i = .error e := by
  induction rawList with
  | nil => intro i h; simp at h
  | cons r rest ih =>
    intro i h
    by_cases hbadr : lineBlank r = false ∧
        (lineHasTabInWs r = true ∨ lineIndent r % w ≠ 0)
    · obtain ⟨e, he⟩ := scanLine_error_of_bad r (i + 1) w hbadr.1 hbadr.2
      refine ⟨e, ?_⟩
      simp only [toParsedLinesAux, he, exc_bind_error]
    · have hrest : ∃ raw ∈ rest, lineBlank raw = false ∧
          (lineHasTabInWs raw = true ∨ lineIndent raw % w ≠ 0) := by
        obtain ⟨raw, hm, hprop⟩ := h
        rcases List.mem_cons.mp hm with rfl | hm
        · exact absurd hprop hbadr
        · exact ⟨raw, hm, hprop⟩
      cases hscan : scanLine r (i + 1) w true with
      | error e =>
        refine ⟨e, ?_⟩
        simp only [toParsedLinesAux, hscan, exc_bind_error]
      | ok p =>
        obtain ⟨e, he⟩ := ih (i + 1) hrest
        refine ⟨e, ?_⟩
        simp only [toParsedLinesAux, hscan, exc_bind_ok, he, exc_bind_error]

theorem auxOk (w : Nat) (rawList : List (List Char)) :
    ∀ i : Nat, (∀ raw ∈ rawList, lineBlank raw = true ∨
      (lineHasTabInWs raw = false ∧ lineIndent raw % w = 0)) →
    ∃ res, toParsedLinesAux w true rawList i = .ok res := by
  induction rawList with
  | nil => intro i _; exact ⟨([], []), rfl⟩
  | cons r rest ih =>
    intro i h
    obtain ⟨p, hp⟩ := scanLine_ok_of_good r (i + 1) w (h r (by simp))
    obtain ⟨res, hres⟩ := ih (i + 1) (fun raw hm => h raw (by simp [hm]))
    refine ⟨(p.1 :: res.1, match p.2 with | some b => b :: res.2 | none => res.2), ?_⟩
    simp only [toParsedLinesAux, hp, exc_bind_ok, hres, exc_bind_ok]

theorem auxDepth (w : Nat) (strict : Bool) (rawList : List (List Char)) :
    ∀ (i : Nat) (ps : List ParsedLine) (bs : List BlankLineInfo),
    toParsedLinesAux w strict rawList i = .ok (ps, bs) →
    (∀ l ∈ ps, l.depth = computeDepthFromIndent l.indent w) ∧
    (∀ b ∈ bs, b.depth = computeDepthFromIndent b.indent w) := by
  induction rawList with
  | nil =>
    intro i ps bs h
    simp only [toParsedLinesAux, Except.ok.injEq, Prod.mk.injEq] at h
    obtain ⟨h1, h2⟩ := h
    subst h1
    subst h2
    exact ⟨by simp, by simp⟩
  | cons r rest ih =>
    intro i ps bs h
    cases hscan : scanLine r (i + 1) w strict with
    | error e => rw [toParsedLinesAux, hscan, exc_bind_error] at h; cases h
    | ok p =>
      obtain ⟨pl, blank⟩ := p
      cases haux : toParsedLinesAux w strict rest (i + 1) with
      | error e =>
        rw [toParsedLinesAux, hscan, exc_bind_ok] at h
        simp only [haux, exc_bind_error] at h
        cases h
      | ok q =>
        obtain ⟨qs, qb⟩ := q
        obtain ⟨hshape1, hshape2⟩ := scanLine_shape r (i + 1) w strict (pl, blank) hscan
        obtain ⟨ihp, ihb⟩ := ih (i + 1) qs qb (by rw [haux])
        rw [toParsedLinesAux, hscan, exc_bind_ok] at h
        simp only [haux, exc_bind_ok, Except.ok.injEq, Prod.mk.injEq] at h
        obtain ⟨h1, h2⟩ := h
        subst h1
        subst h2
        constructor
        · intro l hl
          rcases List.mem_cons.mp hl with rfl | hl
          · simp only at hshape1
            rw [hshape1]
          · exact ihp l hl
        · intro b hb
          rcases hshape2 with hb2 | hb2 <;> simp only at hb2 <;> rw [hb2] at hb
          · exact ihb b hb
          · rcases List.mem_cons.mp hb with rfl | hb
            · rfl
            · exact ihb b hb


/-- C6: with strict scanning, any non-blank line with a tab in its
leading-whitespace run, or whose leading-space count is not an exact
multiple of the indent width, makes `to_parsed_lines` fail; in both
modes every produced line and blank record has depth equal to its
leading-space count floor-divided by the indent width; and inputs whose
non-blank lines are all compliant scan successfully even when blank
lines carry tabs or ragged indents (blank lines are depth-tagged but
exempt). -/
theorem C6_scanner_strict_checks_and_depth :
    (∀ (s : List Char) (w : Nat),
      (∃ raw ∈ pySplitNl s, lineBlank raw = false ∧
        (lineHasTabInWs raw = true ∨ lineIndent raw % w ≠ 0)) →
      ∃ e, toParsedLines s w true = .error e) ∧
    (∀ (s : List Char) (w : Nat) (strict : Bool) (ps : List ParsedLine)
        (bs : List BlankLineInfo),
      toParsedLines s w strict = .ok (ps, bs) →
      (∀ l ∈ ps, l.depth = computeDepthFromIndent l.indent w) ∧
      (∀ b ∈ bs, b.depth = computeDepthFromIndent b.indent w)) ∧
    (∀ (s : List Char) (w : Nat),
      (∀ raw ∈ pySplitNl s, lineBlank raw = true ∨
        (lineHasTabInWs raw = false ∧ lineIndent raw % w = 0)) →
      ∃ res, toParsedLines s w true = .ok res) := by
  refine ⟨?_, ?_, ?_⟩
  · intro s w h
    unfold toParsedLines
    by_cases hstrip : pyStrip s = []
    · exfalso
      obtain ⟨raw, hm, hnb, _⟩ := h
      obtain ⟨c, hcm, hcs⟩ := lineBlank_false_ex raw hnb
      exact pyStrip_ne_nil_of_mem s c (mem_pySplitNl_subset s raw hm c hcm) hcs hstrip
    · rw [if_neg hstrip]
      exact auxError w (pySplitNl s) 0 h
  · intro s w strict ps bs h
    unfold toParsedLines at h
    split at h
    · simp only [Except.ok.injEq, Prod.mk.injEq] at h
      obtain ⟨h1, h2⟩ := h
      subst h1
      subst h2
      exact ⟨by simp, by simp⟩
    · exact auxDepth w strict (pySplitNl s) 0 ps bs h
  · intro s w h
    unfold toParsedLines
    by_cases hstrip : pyStrip s = []
    · rw [if_pos hstrip]
      exact ⟨([], []), rfl⟩
    · rw [if_neg hstrip]
      exact auxOk w (pySplitNl s) 0 h

/-- Witness for C6: a tab-indented line and a misaligned line are
rejected, a well-formed two-line document is depth-tagged, and a blank
line containing a tab is exempt from the strict checks. -/
theorem C6_witness :
    (∃ e, toParsedLines "\tx".data 2 true = .error e) ∧
    (∃ e, toParsedLines " x".data 2 true = .error e) ∧
    ((∀ l ∈ [(⟨"  x".data, 1, 2, ['x'], 1⟩ : ParsedLine)],
        l.depth = computeDepthFromIndent l.indent 2) ∧
      (∀ b ∈ ([] : List BlankLineInfo), b.depth = computeDepthFromIndent b.indent 2)) ∧
    (∃ res, toParsedLines "a: 1\n \t \nb: 2".data 2 true = .ok res) :=
  ⟨C6_scanner_strict_checks_and_depth.1 "\tx".data 2 (by decide),
   C6_scanner_strict_checks_and_depth.1 " x".data 2 (by decide),
   C6_scanner_strict_checks_and_depth.2.1 "  x".data 2 true
     [⟨"  x".data, 1, 2, ['x'], 1⟩] [] rfl,
   C6_scanner_strict_checks_and_depth.2.2 "a: 1\n \t \nb: 2".data 2 (by decide)⟩


theorem iterUnquoted_lb (l : List Char) (i : Nat) (q : Bool) :
    ∀ t ∈ iterUnquoted l i q, i ≤ t.1 := by
  induction l, i, q using iterUnquoted.induct with
  | case1 i q => intro t ht; cases ht
  | case2 c i q =>
    intro t ht
    simp [iterUnquoted] at ht
    subst ht
    exact le_rfl
  | case3 d rest2 i q ih =>
    intro t ht
    rw [iterUnquoted, if_pos rfl] at ht
    rcases List.mem_cons.mp ht with rfl | ht
    · exact le_rfl
    · exact Nat.le_of_succ_le (ih t ht)
  | case4 c d rest2 i q hc hesc ih =>
    intro t ht
    rw [iterUnquoted, if_neg hc, if_pos hesc] at ht
    rcases List.mem_cons.mp ht with rfl | ht
    · exact le_rfl
    · rcases List.mem_cons.mp ht with rfl | ht
      · exact Nat.le_succ_of_le le_rfl
      · exact le_of_lt (lt_of_lt_of_le (by omega) (ih t ht))
  | case5 c d rest2 i q hc hesc ih =>
    intro t ht
    rw [iterUnquoted, if_neg hc, if_neg hesc] at ht
    rcases List.mem_cons.mp ht with rfl | ht
    · exact le_rfl
    · exact Nat.le_of_succ_le (ih t ht)

theorem iterUnquoted_pairwise (l : List Char) (i : Nat) (q : Bool) :
    (iterUnquoted l i q).Pairwise (fun a b => a.1 < b.1) := by
  induction l, i, q using iterUnquoted.induct with
  | case1 i q => exact List.Pairwise.nil
  | case2 c i q => simp [iterUnquoted]
  | case3 d rest2 i q ih =>
    rw [iterUnquoted, if_pos rfl]
    refine List.pairwise_cons.mpr ⟨?_, ih⟩
    intro t ht
    exact lt_of_lt_of_le (Nat.lt_succ_self i) (iterUnquoted_lb _ _ _ t ht)
  | case4 c d rest2 i q hc hesc ih =>
    rw [iterUnquoted, if_neg hc, if_pos hesc]
    refine List.pairwise_cons.mpr ⟨?_, List.pairwise_cons.mpr ⟨?_, ih⟩⟩
    · intro t ht
      rcases List.mem_cons.mp ht with rfl | ht
      · omega
      · have := iterUnquoted_lb _ _ _ t ht
        omega
    · intro t ht
      have := iterUnquoted_lb _ _ _ t ht
      omega
  | case5 c d rest2 i q hc hesc ih =>
    rw [iterUnquoted, if_neg hc, if_neg hesc]
    refine List.pairwise_cons.mpr ⟨?_, ih⟩
    intro t ht
    exact lt_of_lt_of_le (Nat.lt_succ_self i) (iterUnquoted_lb _ _ _ t ht)


theorem findTwo (d : Char) (hne : d ≠ ':') :
    ∀ L : List (Nat × Char × Bool), L.Pairwise (fun a b => a.1 < b.1) →
    ((match (L.find? (fun t => [d, ':'].contains t.2.1 && t.2.2 = false)).map
        (fun t => (t.1, t.2.1)) with
      | none => true
      | some p => decide (p.2 = d)) = true ↔
     ((L.find? (fun t => t.2.1 = ':' && t.2.2 = false)).map (fun t => t.1) = none ∨
      ∃ i j, (L.find? (fun t => t.2.1 = d && t.2.2 = false)).map (fun t => t.1) = some i ∧
             (L.find? (fun t => t.2.1 = ':' && t.2.2 = false)).map (fun t => t.1) = some j ∧
             i < j)) := by
  intro L hL
  induction L with
  | nil => simp
  | cons t L ih =>
    have hpw := List.pairwise_cons.mp hL
    by_cases hq : t.2.2 = false
    · by_cases hd : t.2.1 = d
      · have hcomb : ([d, ':'].contains t.2.1 && decide (t.2.2 = false)) = true := by
          simp [hd, hq]
        have hdp : (decide (t.2.1 = d) && decide (t.2.2 = false)) = true := by
          simp [hd, hq]
        have hcp : (decide (t.2.1 = ':') && decide (t.2.2 = false)) = false := by
          simp [hd, hq, hne]
        simp only [List.find?_cons, hcomb, hdp, hcp, Option.map_some]
        constructor
        · intro _
          cases hcol : (L.find? (fun t => t.2.1 = ':' && t.2.2 = false)) with
          | none => exact Or.inl (by simp [hcol])
          | some s =>
            refine Or.inr ⟨t.1, s.1, rfl, by simp [hcol], ?_⟩
            exact hpw.1 s (List.mem_of_find?_eq_some hcol)
        · intro _
          simp [hd]
      · by_cases hcol : t.2.1 = ':'
        · have hdn : (':' : Char) ≠ d := fun h => hne h.symm
          have hcomb : ([d, ':'].contains t.2.1 && decide (t.2.2 = false)) = true := by
            simp [hcol, hq]
          have hdp : (decide (t.2.1 = d) && decide (t.2.2 = false)) = false := by
            simp [hcol, hq, hdn]
          have hcp : (decide (t.2.1 = ':') && decide (t.2.2 = false)) = true := by
            simp [hcol, hq]
          simp only [List.find?_cons, hcomb, hdp, hcp, Option.map_some]
          constructor
          · intro hfalse
            simp [hcol] at hfalse
            exact absurd hfalse hdn
          · intro hr
            rcases hr with hr | ⟨i, j, hi, hj, hij⟩
            · simp at hr
            · exfalso
              rw [Option.map_eq_some'] at hi
              obtain ⟨ti, hti, hti1⟩ := hi
              have hj' : t.1 = j := by simpa using hj
              have hmem : ti ∈ L := List.mem_of_find?_eq_some hti
              have := hpw.1 ti hmem
              omega
        · have hcomb : ([d, ':'].contains t.2.1 && decide (t.2.2 = false)) = false := by
            simp [hd, hcol]
          have hdp : (decide (t.2.1 = d) && decide (t.2.2 = false)) = false := by
            simp [hd]
          have hcp : (decide (t.2.1 = ':') && decide (t.2.2 = false)) = false := by
            simp [hcol]
          simp only [List.find?_cons, hcomb, hdp, hcp]
          exact ih hpw.2
    · have hq' : t.2.2 = true := by simpa using hq
      have hcomb : ([d, ':'].contains t.2.1 && decide (t.2.2 = false)) = false := by
        simp [hq']
      have hdp : (decide (t.2.1 = d) && decide (t.2.2 = false)) = false := by
        simp [hq']
      have hcp : (decide (t.2.1 = ':') && decide (t.2.2 = false)) = false := by
        simp [hq']
      simp only [List.find?_cons, hcomb, hdp, hcp]
      exact ih hpw.2

/-- C7: during tabular decoding, `is_row_line` classifies a candidate line
by the first unquoted occurrence of the active delimiter versus the first
unquoted `:`: it returns true exactly when `:` does not occur unquoted at
all, or the delimiter occurs unquoted strictly before it. -/
theorem C7_is_row_line_first_unquoted (line : List Char) (d : Char) (hne : d ≠ ':') :
    isRowLine line d = true ↔
      (findUnquotedChar line ':' = none ∨
       ∃ i j, findUnquotedChar line d = some i ∧ findUnquotedChar line ':' = some j ∧
              i < j) := by
  have hmain := findTwo d hne (iterUnquoted line 0 false) (iterUnquoted_pairwise line 0 false)
  unfold isRowLine findFirstUnquoted findUnquotedChar
  rcases hx : (iterUnquoted line 0 false).find?
      (fun t => [d, ':'].contains t.2.1 && t.2.2 = false) with _ | t <;>
    simp only [hx, Option.map_none', Option.map_some'] at hmain ⊢ <;>
    exact hmain

theorem C7_witness : isRowLine "a,b".data ',' = true :=
  (C7_is_row_line_first_unquoted "a,b".data ',' (by decide)).mpr (Or.inl (by decide))

end Toon
